import Mathlib

/-!
# A verification model of the gospring IoC container

This file gives a shallow embedding, in Lean, of the core of the
`gospring` repository: the `container` package (`Container`,
`BeanDefinition`, registration, bean lookup, dependency injection),
the `lifecycle` package (`LifecycleManager`, `ProcessInitialization`,
`ProcessDestruction`, the reflective `callInitMethod` /
`callDestroyMethod` helpers) and the `context` package
(`ApplicationContext.Start` / `Stop` / `Refresh`).

Modelling conventions, chosen to match what the Go source observes:

* Bean instances are pointers `*T` to heap objects; `Inst` records the
  pointed-to named type and the heap reference.  `reflect.Type` values
  are modelled by `GoType` (a named struct type `T`, a pointer type
  `*T`, or an interface type).
* Reflection on a type is modelled by a static `StructTy` description:
  the injectable fields, the niladic methods of `*T` together with the
  result each call produces (hook bodies are opaque to the claims, so a
  method is summarised by whether it returns an `error` and which value
  that `error` has), whether `SetBeanName(string)` exists, which
  user-declared interfaces `*T` implements, and the `init-method` /
  `destroy-method` struct tags in field order.
* Go `map` CONTENT is modelled by an insertion-ordered association
  list; Go map ITERATION order is unspecified, so every place the
  source ranges over a map of beans (`ListBeans` feeding `Start` and
  `Stop`) takes the iteration order as an explicit list constrained to
  be a permutation of the registered names (`ValidIteration`).
* Mutation is explicit state passing: `World` carries the heap of
  objects, the next fresh reference, and the event log of the logging
  sink (only the events the claims mention are modelled; the purely
  informational lifecycle start/stop events are elided).
* `GetBean` on a prototype recurses through injection, which in Go can
  diverge on cyclic prototype graphs; the model bounds execution with
  fuel, `none` marking divergence.
* Go errors are their `fmt.Errorf` message strings; `none` is `nil`.
-/

namespace GoSpring

/-- Heap reference (the identity of a pointer). -/
abbrev Ref := Nat

/-- Identifier of a named (struct) Go type. -/
abbrev TyId := Nat

/-- `reflect.Type` as the container uses it: a named struct type `T`,
a pointer type `*T`, or an interface type. -/
inductive GoType where
  | named (t : TyId)
  | ptr (t : TyId)
  | iface (i : Nat)
deriving DecidableEq

/-- Result shape of a niladic method: `unit` for `func ()` (no result
values), `err e` for `func () error` whose call returns `e`
(`none` = `nil`). -/
inductive MethodRes where
  | unit
  | err (e : Option String)
deriving DecidableEq

/-- A struct field as `InjectDependencies` sees it: its `inject` tag
(`""` when absent), its declared type, and `CanSet`. -/
structure GoField where
  injectTag : String
  ftype : GoType
  canSet : Bool
deriving DecidableEq

/-- Static description of a named struct type `T`: everything
reflection observes on `*T` in the source. -/
structure StructTy where
  fields : List GoField
  methods : List (String × MethodRes)
  hasSetBeanName : Bool
  ifaces : List Nat
  initTags : List String
  destroyTags : List String
deriving DecidableEq

/-- Association-list lookup (content of a Go map). -/
def alookup {α β : Type} [DecidableEq α] (k : α) : List (α × β) → Option β
  | [] => none
  | p :: rest => if p.1 = k then some p.2 else alookup k rest

/-- Association-list update, `m[k] = v` on a Go map. -/
def aupdate {α β : Type} [DecidableEq α] (k : α) (v : β) : List (α × β) → List (α × β)
  | [] => [(k, v)]
  | p :: rest => if p.1 = k then (k, v) :: rest else p :: aupdate k v rest

/-- The type environment: named type id to its struct description. -/
abbrev TyEnv := List (TyId × StructTy)

/-- Description of type `t`; unknown ids behave as an empty struct. -/
def lookupTy (tenv : TyEnv) (t : TyId) : StructTy :=
  (alookup t tenv).getD ⟨[], [], false, [], [], []⟩

/-- A bean instance: a pointer `*T` to a heap object. -/
structure Inst where
  tyId : TyId
  ref : Ref
deriving DecidableEq

/-- A heap object: its named type and the current field values (one
slot per field of the type, `none` being the zero value). -/
structure Obj where
  tyId : TyId
  fieldVals : List (Option Inst)
deriving DecidableEq

/-- Events of the logging sink that the claims mention. -/
inductive LogEvent where
  | dependencyInjected (targetTy : TyId) (fieldIdx : Nat)
  | dependencyInjectionFailed (targetTy : TyId) (fieldIdx : Nat)
  | componentDestroyed (name : String)
deriving DecidableEq

/-- Mutable state outside the container: the heap, the fresh-reference
allocator and the logging sink's event list. -/
structure World where
  heap : List (Ref × Obj)
  nextRef : Ref
  log : List LogEvent
deriving DecidableEq

/-- A record of one hook-method invocation: which object, which
method.  Traces of these let us count destroy-hook invocations. -/
abbrev HookCall := Ref × String

/-- An apostrophe, as Go's `%s`-quoting in error messages uses it. -/
def quo (s : String) : String := "\x27" ++ s ++ "\x27"

/-! ## The lifecycle package: `LifecycleManager` -/

/-- `lifecycle.LifecycleManager`: the two order logs.  (The logger
field is modelled by the traces the operations return.) -/
structure LifecycleManager where
  initOrder : List String
  destroyOrder : List String
deriving DecidableEq

/-- `NewLifecycleManager()`: empty order logs. -/
def NewLifecycleManager : LifecycleManager := ⟨[], []⟩

/-- `GetInitOrder`. -/
def GetInitOrder (lm : LifecycleManager) : List String := lm.initOrder

/-- `GetDestroyOrder`. -/
def GetDestroyOrder (lm : LifecycleManager) : List String := lm.destroyOrder

/-- `Reset`: clears both order logs. -/
def Reset (_ : LifecycleManager) : LifecycleManager := ⟨[], []⟩

/-- The niladic method `name` of `*t`, if any. -/
def methodOf (tenv : TyEnv) (t : TyId) (name : String) : Option MethodRes :=
  alookup name (lookupTy tenv t).methods

/-- Type assertion to `annotations.Initializer` (`Init() error`). -/
def isInitializer (tenv : TyEnv) (t : TyId) : Bool :=
  match methodOf tenv t "Init" with
  | some (MethodRes.err _) => true
  | _ => false

/-- Type assertion to `annotations.PostConstruct`. -/
def isPostConstruct (tenv : TyEnv) (t : TyId) : Bool :=
  match methodOf tenv t "PostConstruct" with
  | some (MethodRes.err _) => true
  | _ => false

/-- Type assertion to `interface{ Destroy() }` (used by
`Container.Destroy`): a `Destroy` method with no result values. -/
def hasNiladicDestroy (tenv : TyEnv) (t : TyId) : Bool :=
  match methodOf tenv t "Destroy" with
  | some MethodRes.unit => true
  | _ => false

/-- `val.MethodByName(name)` followed by `Call(nil)` and the source's
result inspection: absent method gives `none`; a present (niladic)
method gives the invocation event and the `error` the source extracts
from the results (no results, or a `nil` error, count as success). -/
def callByName (tenv : TyEnv) (t : TyId) (r : Ref) (name : String) :
    Option (List HookCall × Option String) :=
  match methodOf tenv t name with
  | none => none
  | some MethodRes.unit => some ([(r, name)], none)
  | some (MethodRes.err e) => some ([(r, name)], e)

/-- The candidate-name loop shared by `callInitMethod` and
`callDestroyMethod`: call the first valid method; on error return it,
on success break. -/
def callFirstValid (tenv : TyEnv) (t : TyId) (r : Ref) :
    List String → List HookCall × Option String
  | [] => ([], none)
  | n :: rest =>
    match callByName tenv t r n with
    | some (evs, e) => (evs, e)
    | none => callFirstValid tenv t r rest

/-- The struct-tag loop shared by `callInitMethod` and
`callDestroyMethod`: call every tagged method that exists, aborting on
the first error. -/
def callTagged (tenv : TyEnv) (t : TyId) (r : Ref) :
    List String → List HookCall × Option String
  | [] => ([], none)
  | n :: rest =>
    match callByName tenv t r n with
    | none => callTagged tenv t r rest
    | some (evs, some e) => (evs, some e)
    | some (evs, none) =>
      let res := callTagged tenv t r rest
      (evs ++ res.1, res.2)

/-- The list of init-method candidates, from the source: `Init` only
when `Initializer` is not implemented, then `Initialize`,
`AfterPropertiesSet`, then `PostConstruct` only when the
`PostConstruct` interface is not implemented. -/
def initMethodNames (tenv : TyEnv) (t : TyId) : List String :=
  let base := ["Initialize", "AfterPropertiesSet"]
  let l1 := if isInitializer tenv t then base else "Init" :: base
  if isPostConstruct tenv t then l1 else l1 ++ ["PostConstruct"]

/-- `LifecycleManager.callInitMethod`: first valid candidate by name,
then the `init-method` tagged methods. -/
def callInitMethod (tenv : TyEnv) (t : TyId) (r : Ref) :
    List HookCall × Option String :=
  let s := callFirstValid tenv t r (initMethodNames tenv t)
  match s.2 with
  | some e => (s.1, some e)
  | none =>
    let s2 := callTagged tenv t r (lookupTy tenv t).initTags
    (s.1 ++ s2.1, s2.2)

/-- `LifecycleManager.callDestroyMethod`: first valid among `Destroy`,
`Close`, `Cleanup`, `PreDestroy` (note: the source does NOT exclude
methods already invoked through the `Destroyer` or `PreDestroy`
interfaces), then the `destroy-method` tagged methods. -/
def callDestroyMethod (tenv : TyEnv) (t : TyId) (r : Ref) :
    List HookCall × Option String :=
  let s := callFirstValid tenv t r ["Destroy", "Close", "Cleanup", "PreDestroy"]
  match s.2 with
  | some e => (s.1, some e)
  | none =>
    let s2 := callTagged tenv t r (lookupTy tenv t).destroyTags
    (s.1 ++ s2.1, s2.2)

/-- Run an interface hook (steps of `ProcessInitialization` /
`ProcessDestruction` that type-assert to an `error`-returning
interface): skipped when not implemented, otherwise called with its
error wrapped by `wrap`. -/
def runIfaceHook (tenv : TyEnv) (t : TyId) (r : Ref) (name : String)
    (wrap : String → String) : List HookCall × Option String :=
  match methodOf tenv t name with
  | some (MethodRes.err e) => ([(r, name)], e.map wrap)
  | _ => ([], none)

/-- Sequence two steps, the second running only when the first set no
error (the `initError == nil` / `destroyError == nil` guards). -/
def andThenStep (s1 : List HookCall × Option String)
    (s2 : Unit → List HookCall × Option String) :
    List HookCall × Option String :=
  match s1.2 with
  | some e => (s1.1, some e)
  | none =>
    let r := s2 ()
    (s1.1 ++ r.1, r.2)

/-- Steps 2-4 of `ProcessInitialization`: `Initializer.Init`, then
`PostConstruct` (only if no error yet), then `callInitMethod` (only if
no error yet), with the source's per-phase error messages. -/
def initChain (tenv : TyEnv) (beanName : String) (t : TyId) (r : Ref) :
    List HookCall × Option String :=
  andThenStep
    (runIfaceHook tenv t r "Init"
      (fun m => "failed to initialize bean " ++ quo beanName ++ ": " ++ m))
    (fun _ => andThenStep
      (runIfaceHook tenv t r "PostConstruct"
        (fun m => "failed to execute post construct for bean " ++ quo beanName ++ ": " ++ m))
      (fun _ =>
        let s := callInitMethod tenv t r
        (s.1, s.2.map
          (fun m => "failed to call init method for bean " ++ quo beanName ++ ": " ++ m))))

/-- `LifecycleManager.ProcessInitialization`: `BeanNameAware` callback,
then the init chain; the bean name is appended to `initOrder` only on
success.  Returns the updated manager, the hook-invocation trace, and
the error. -/
def ProcessInitialization (tenv : TyEnv) (lm : LifecycleManager)
    (beanName : String) (i : Inst) :
    LifecycleManager × List HookCall × Option String :=
  let evsA : List HookCall :=
    if (lookupTy tenv i.tyId).hasSetBeanName then [(i.ref, "SetBeanName")] else []
  let s := initChain tenv beanName i.tyId i.ref
  match s.2 with
  | some e => (lm, evsA ++ s.1, some e)
  | none => ({ lm with initOrder := lm.initOrder ++ [beanName] }, evsA ++ s.1, none)

/-- Steps 1-3 of `ProcessDestruction`: `PreDestroy`, then
`Destroyer.Destroy` (only if no error yet), then `callDestroyMethod`
(only if no error yet). -/
def destroyChain (tenv : TyEnv) (beanName : String) (t : TyId) (r : Ref) :
    List HookCall × Option String :=
  andThenStep
    (runIfaceHook tenv t r "PreDestroy"
      (fun m => "failed to execute pre destroy for bean " ++ quo beanName ++ ": " ++ m))
    (fun _ => andThenStep
      (runIfaceHook tenv t r "Destroy"
        (fun m => "failed to destroy bean " ++ quo beanName ++ ": " ++ m))
      (fun _ =>
        let s := callDestroyMethod tenv t r
        (s.1, s.2.map
          (fun m => "failed to call destroy method for bean " ++ quo beanName ++ ": " ++ m))))

/-- `LifecycleManager.ProcessDestruction`: the destroy chain; the bean
name is PREPENDED to `destroyOrder` regardless of success, and the
error (if any) is returned. -/
def ProcessDestruction (tenv : TyEnv) (lm : LifecycleManager)
    (beanName : String) (i : Inst) :
    LifecycleManager × List HookCall × Option String :=
  let s := destroyChain tenv beanName i.tyId i.ref
  ({ lm with destroyOrder := beanName :: lm.destroyOrder }, s.1, s.2)

/-! ## The container package: `Container` -/

/-- `container.BeanDefinition`: name, element type (`Type`), scope and
the stored instance.  (The `Value` field duplicates `Instance` and the
per-bean mutex has no sequential content.) -/
structure BeanDefinition where
  Name : String
  tyId : TyId
  Singleton : Bool
  Instance : Inst
deriving DecidableEq

/-- `container.Container`: the name-to-definition map and the
type-to-name map, both as insertion-ordered association lists. -/
structure Container where
  beans : List (String × BeanDefinition)
  typeMapping : List (GoType × String)
deriving DecidableEq

/-- `NewContainer()`. -/
def NewContainer : Container := ⟨[], []⟩

/-- The duplicate-name error message of `registerBean`. -/
def dupNameMsg (name : String) : String :=
  "bean with name " ++ quo name ++ " already exists"

/-- `Container.registerBean`: duplicate names are a hard error that
leaves the container untouched; otherwise the definition is stored and
the element type `T` and the pointer type `*T` are both mapped to the
name (`registerInterfaces` is a no-op in the source: its loop body is
empty). -/
def registerBean (c : Container) (name : String) (inst : Inst)
    (singleton : Bool) : Container × Option String :=
  if (alookup name c.beans).isSome then
    (c, some (dupNameMsg name))
  else
    let bd : BeanDefinition := ⟨name, inst.tyId, singleton, inst⟩
    let tm1 := aupdate (GoType.named inst.tyId) name c.typeMapping
    let tm2 := aupdate (GoType.ptr inst.tyId) name tm1
    (⟨c.beans ++ [(name, bd)], tm2⟩, none)

/-- `Container.RegisterSingleton`. -/
def RegisterSingleton (c : Container) (name : String) (inst : Inst) :
    Container × Option String :=
  registerBean c name inst true

/-- `Container.RegisterPrototype`. -/
def RegisterPrototype (c : Container) (name : String) (inst : Inst) :
    Container × Option String :=
  registerBean c name inst false

/-- `Container.RegisterByInterface`: a `TypeMismatchError` when the
implementation does not implement the interface; otherwise
`RegisterSingleton` followed by mapping the interface type to the
name.  (The source's message interpolates the two types; the type
names are elided here.) -/
def RegisterByInterface (tenv : TyEnv) (c : Container) (ifaceId : Nat)
    (impl : Inst) (name : String) : Container × Option String :=
  if ifaceId ∈ (lookupTy tenv impl.tyId).ifaces then
    match RegisterSingleton c name impl with
    | (c1, some e) => (c1, some e)
    | (c1, none) =>
      (⟨c1.beans, aupdate (GoType.iface ifaceId) name c1.typeMapping⟩, none)
  else
    (c, some "type does not implement interface")

/-- `Container.HasBean`. -/
def HasBean (c : Container) (name : String) : Bool :=
  (alookup name c.beans).isSome

/-- The CONTENT of `Container.ListBeans()`, in registration order.
Iteration order of the underlying Go map is unspecified, so consumers
take an order constrained by `ValidIteration`. -/
def ListBeans (c : Container) : List String :=
  c.beans.map Prod.fst

/-- A possible result of `ListBeans()`: any permutation of the
registered names (Go map iteration order is unspecified and varies
between calls). -/
def ValidIteration (c : Container) (order : List String) : Prop :=
  order.Perm (ListBeans c)

instance (c : Container) (order : List String) :
    Decidable (ValidIteration c order) := by
  unfold ValidIteration; infer_instance

/-- `Container.GetBeanDefinition`. -/
def GetBeanDefinition (c : Container) (name : String) : Option BeanDefinition :=
  alookup name c.beans

/-- Allocate `reflect.New(t)`: a fresh pointer to a zero-valued
object (every field slot at its zero value). -/
def allocate (tenv : TyEnv) (w : World) (t : TyId) : World :=
  { w with
      heap := w.heap ++ [(w.nextRef, ⟨t, List.replicate (lookupTy tenv t).fields.length none⟩)]
      nextRef := w.nextRef + 1 }

/-- Set field `idx` of the object at `r` to `d` (`field.Set`). -/
def setFieldVal (w : World) (r : Ref) (idx : Nat) (d : Inst) : World :=
  { w with
      heap := w.heap.map
        (fun p => if p.1 = r then (p.1, ⟨p.2.tyId, p.2.fieldVals.set idx (some d)⟩) else p) }

/-- Append an event to the logging sink. -/
def pushLog (w : World) (e : LogEvent) : World :=
  { w with log := w.log ++ [e] }

/-- `depVal.Type().AssignableTo(field.Type())` for a dependency of
dynamic type `*t`: identical pointer types, or an interface type that
`*t` implements. -/
def assignable (tenv : TyEnv) (t : TyId) (fieldTy : GoType) : Bool :=
  match fieldTy with
  | GoType.ptr t2 => t = t2
  | GoType.iface i => i ∈ (lookupTy tenv t).ifaces
  | GoType.named _ => false

/-- Requests of the mutually recursive resolution/injection family
(`GetBean`, `GetBeanByType`, `createNewInstance`,
`InjectDependencies` and its field loop).  The container and the type
environment are fixed across the recursion; fuel bounds it. -/
inductive Req where
  | getBean (w : World) (name : String)
  | getByType (w : World) (ty : GoType)
  | newInst (w : World) (bd : BeanDefinition)
  | inject (w : World) (i : Inst)
  | injectFrom (w : World) (i : Inst) (idx : Nat) (fs : List GoField)

/-- Results of the family: resolution gives a world and an optional
instance; injection gives a world and the Go `error`. -/
inductive Res where
  | found (w : World) (r : Option Inst)
  | injected (w : World) (e : Option String)
deriving DecidableEq

/-- One executable for the mutually recursive family, structurally
recursive on fuel (`none` = the Go code would not have returned, as on
cyclic prototype graphs):

* `getBean w name` is `Container.GetBean`: missing name gives `nil`;
  a singleton gives the stored instance; a prototype goes through
  `createNewInstance`.
* `getByType w ty` is `Container.GetBeanByType`: one indirection
  through `typeMapping`, then `GetBean`.
* `newInst w bd` is `Container.createNewInstance`: allocate a fresh
  zero-valued `*T`, run `InjectDependencies` on it (its error is
  ignored, as in the source), return the new instance.
* `inject w i` is `Container.InjectDependencies`: walk the fields of
  the instance's type; `injectFrom` is the loop from field `idx` on.
  Untagged or unsettable fields are skipped; a tag other than `"true"`
  resolves by name, otherwise by type; a resolved, assignable
  dependency is stored and logged; an unresolvable one only logs a
  failure event; the function always returns `nil`. -/
def exec (tenv : TyEnv) (c : Container) : Nat → Req → Option Res
  | 0, _ => none
  | fuel + 1, Req.getBean w name =>
    match alookup name c.beans with
    | none => some (Res.found w none)
    | some bd =>
      if bd.Singleton then some (Res.found w (some bd.Instance))
      else exec tenv c fuel (Req.newInst w bd)
  | fuel + 1, Req.getByType w ty =>
    match alookup ty c.typeMapping with
    | none => some (Res.found w none)
    | some name => exec tenv c fuel (Req.getBean w name)
  | fuel + 1, Req.newInst w bd =>
    let r := w.nextRef
    match exec tenv c fuel (Req.inject (allocate tenv w bd.tyId) ⟨bd.tyId, r⟩) with
    | some (Res.injected w2 _) => some (Res.found w2 (some ⟨bd.tyId, r⟩))
    | _ => none
  | fuel + 1, Req.inject w i =>
    exec tenv c fuel (Req.injectFrom w i 0 (lookupTy tenv i.tyId).fields)
  | _ + 1, Req.injectFrom w _ _ [] => some (Res.injected w none)
  | fuel + 1, Req.injectFrom w i idx (f :: rest) =>
      if f.injectTag = "" then
        exec tenv c fuel (Req.injectFrom w i (idx + 1) rest)
      else if !f.canSet then
        exec tenv c fuel (Req.injectFrom w i (idx + 1) rest)
      else
        let depRes :=
          if f.injectTag ≠ "true" then exec tenv c fuel (Req.getBean w f.injectTag)
          else exec tenv c fuel (Req.getByType w f.ftype)
        match depRes with
        | some (Res.found w1 (some d)) =>
          if assignable tenv d.tyId f.ftype then
            let w2 := pushLog (setFieldVal w1 i.ref idx d)
              (LogEvent.dependencyInjected i.tyId idx)
            exec tenv c fuel (Req.injectFrom w2 i (idx + 1) rest)
          else
            exec tenv c fuel (Req.injectFrom w1 i (idx + 1) rest)
        | some (Res.found w1 none) =>
          exec tenv c fuel
            (Req.injectFrom (pushLog w1 (LogEvent.dependencyInjectionFailed i.tyId idx))
              i (idx + 1) rest)
        | _ => none

/-- `Container.GetBean`. -/
def GetBean (fuel : Nat) (tenv : TyEnv) (c : Container) (w : World)
    (name : String) : Option (World × Option Inst) :=
  match exec tenv c fuel (Req.getBean w name) with
  | some (Res.found w' r) => some (w', r)
  | _ => none

/-- `Container.GetBeanByType`. -/
def GetBeanByType (fuel : Nat) (tenv : TyEnv) (c : Container) (w : World)
    (ty : GoType) : Option (World × Option Inst) :=
  match exec tenv c fuel (Req.getByType w ty) with
  | some (Res.found w' r) => some (w', r)
  | _ => none

/-- `Container.InjectDependencies`. -/
def InjectDependencies (fuel : Nat) (tenv : TyEnv) (c : Container)
    (w : World) (i : Inst) : Option (World × Option String) :=
  match exec tenv c fuel (Req.inject w i) with
  | some (Res.injected w' e) => some (w', e)
  | _ => none

/-- The loop of `Container.WireAll` over the bean definitions: the
first per-bean injection error is wrapped and returned.  (Iteration
order of the map is unspecified; no claim depends on it, so the
insertion order is walked.) -/
def wireLoop (fuel : Nat) (tenv : TyEnv) (c : Container) (w : World) :
    List (String × BeanDefinition) → Option (World × Option String)
  | [] => some (w, none)
  | (_, bd) :: rest =>
    match InjectDependencies fuel tenv c w bd.Instance with
    | none => none
    | some (w1, some e) =>
      some (w1, some ("failed to inject dependencies for bean " ++ quo bd.Name ++ ": " ++ e))
    | some (w1, none) => wireLoop fuel tenv c w1 rest

/-- `Container.WireAll`. -/
def WireAll (fuel : Nat) (tenv : TyEnv) (c : Container) (w : World) :
    Option (World × Option String) :=
  wireLoop fuel tenv c w c.beans

/-- `Container.Destroy`: for every stored bean whose instance
satisfies `interface{ Destroy() }`, invoke that niladic hook; log a
`ComponentDestroyed` event for every bean; then clear both maps.
(Iteration order of the map is unspecified; the claims only depend on
the multiset of invocations, so the insertion order is walked.) -/
def containerDestroy (tenv : TyEnv) (c : Container) (w : World) :
    Container × World × List HookCall :=
  let step := fun (acc : World × List HookCall) (p : String × BeanDefinition) =>
    let evs' :=
      if hasNiladicDestroy tenv p.2.Instance.tyId then
        acc.2 ++ [(p.2.Instance.ref, "Destroy")]
      else acc.2
    (pushLog acc.1 (LogEvent.componentDestroyed p.2.Name), evs')
  let r := c.beans.foldl step (w, [])
  (⟨[], []⟩, r.1, r.2)

/-! ## The context package: `ApplicationContext` -/

/-- `context.ApplicationContext`: one container, one lifecycle
manager, the `started` flag.  (The scanner and annotation utilities
touch no state the claims mention.) -/
structure ApplicationContext where
  container : Container
  lifecycleManager : LifecycleManager
  started : Bool
deriving DecidableEq

/-- `NewApplicationContext()`. -/
def NewApplicationContext : ApplicationContext :=
  ⟨NewContainer, NewLifecycleManager, false⟩

/-- `ApplicationContext.IsStarted`. -/
def IsStarted (ctx : ApplicationContext) : Bool := ctx.started

/-- The loop of `Start` over the bean names `ListBeans()` returned:
`GetBean` each name (allocating fresh copies of prototypes), skip
`nil` beans, `ProcessInitialization` the rest, and abort with a
wrapped error on the first initialization failure. -/
def startLoop (fuel : Nat) (tenv : TyEnv) (c : Container)
    (lm : LifecycleManager) (w : World) :
    List String → Option (LifecycleManager × World × List HookCall × Option String)
  | [] => some (lm, w, [], none)
  | n :: rest =>
    match GetBean fuel tenv c w n with
    | none => none
    | some (w1, none) => startLoop fuel tenv c lm w1 rest
    | some (w1, some b) =>
      let s := ProcessInitialization tenv lm n b
      match s.2.2 with
      | some e =>
        some (s.1, w1, s.2.1, some ("failed to initialize bean " ++ quo n ++ ": " ++ e))
      | none =>
        match startLoop fuel tenv c s.1 w1 rest with
        | none => none
        | some (lm2, w2, evs2, res) => some (lm2, w2, s.2.1 ++ evs2, res)

/-- `ApplicationContext.Start`: an error when already started;
otherwise `WireAll`, then the initialization loop over an iteration
order of the bean map; `started` is set only when everything
succeeded.  Returns the context, the world, the hook trace and the
error. -/
def Start (fuel : Nat) (tenv : TyEnv) (ctx : ApplicationContext)
    (w : World) (order : List String) :
    Option (ApplicationContext × World × List HookCall × Option String) :=
  if ctx.started then some (ctx, w, [], some "application context is already started")
  else
    match WireAll fuel tenv ctx.container w with
    | none => none
    | some (w1, some e) =>
      some (ctx, w1, [], some ("failed to wire dependencies: " ++ e))
    | some (w1, none) =>
      match startLoop fuel tenv ctx.container ctx.lifecycleManager w1 order with
      | none => none
      | some (lm1, w2, evs, some e) =>
        some ({ ctx with lifecycleManager := lm1 }, w2, evs, some e)
      | some (lm1, w2, evs, none) =>
        some ({ ctx with lifecycleManager := lm1, started := true }, w2, evs, none)

/-- The loop of `Stop` over the reversed bean names: `GetBean` each
(again allocating fresh copies of prototypes), skip `nil` beans,
`ProcessDestruction` the rest; a destruction error is printed and
IGNORED, never aborting the loop. -/
def stopLoop (fuel : Nat) (tenv : TyEnv) (c : Container)
    (lm : LifecycleManager) (w : World) :
    List String → Option (LifecycleManager × World × List HookCall)
  | [] => some (lm, w, [])
  | n :: rest =>
    match GetBean fuel tenv c w n with
    | none => none
    | some (w1, none) => stopLoop fuel tenv c lm w1 rest
    | some (w1, some b) =>
      let s := ProcessDestruction tenv lm n b
      match stopLoop fuel tenv c s.1 w1 rest with
      | none => none
      | some (lm2, w2, evs2) => some (lm2, w2, s.2.1 ++ evs2)

/-- `ApplicationContext.Stop`: an error when not started; otherwise
destroy the beans in the REVERSE of an iteration order of the bean
map (errors only printed), then `Container.Destroy` (which may invoke
niladic destroy hooks again and clears the container), then clear the
`started` flag.  Always returns `nil` once past the started check. -/
def Stop (fuel : Nat) (tenv : TyEnv) (ctx : ApplicationContext)
    (w : World) (order : List String) :
    Option (ApplicationContext × World × List HookCall × Option String) :=
  if !ctx.started then some (ctx, w, [], some "application context is not started")
  else
    match stopLoop fuel tenv ctx.container ctx.lifecycleManager w order.reverse with
    | none => none
    | some (lm1, w1, evs1) =>
      let d := containerDestroy tenv ctx.container w1
      some (⟨d.1, lm1, false⟩, d.2.1, evs1 ++ d.2.2, none)

/-- `ApplicationContext.Refresh`: `Stop` (when started) then `Start`.
The two map iterations get separate order arguments; after a `Stop`
the container is empty, so the `Start` iteration only matters on a
context that was not started. -/
def Refresh (fuel : Nat) (tenv : TyEnv) (ctx : ApplicationContext)
    (w : World) (stopOrder startOrder : List String) :
    Option (ApplicationContext × World × List HookCall × Option String) :=
  if ctx.started then
    match Stop fuel tenv ctx w stopOrder with
    | none => none
    | some (ctx1, w1, evs1, some e) => some (ctx1, w1, evs1, some e)
    | some (ctx1, w1, evs1, none) =>
      match Start fuel tenv ctx1 w1 startOrder with
      | none => none
      | some (ctx2, w2, evs2, res) => some (ctx2, w2, evs1 ++ evs2, res)
  else Start fuel tenv ctx w startOrder

/-! ## Derived notions used by the claims -/

/-- Whether `InjectDependencies` will resolve a field's dependency
(the source resolves by name for a tag other than `"true"`, otherwise
by type); resolvability depends only on the container, not on the
heap, because a singleton resolves to its stored instance and a
prototype always resolves to a fresh one. -/
def resolvable (c : Container) (f : GoField) : Bool :=
  if f.injectTag ≠ "true" then (alookup f.injectTag c.beans).isSome
  else
    match alookup f.ftype c.typeMapping with
    | some n => (alookup n c.beans).isSome
    | none => false

/-- The value of field `j` of the object at `r` (outer `none`: no such
object; inner value: `none` is the zero value). -/
def fieldValAt (w : World) (r : Ref) (j : Nat) : Option (Option Inst) :=
  (alookup r w.heap).bind (fun o => o.fieldVals.get? j)

/-! ## Association-list lemmas -/

theorem alookup_append {α β : Type} [DecidableEq α] (k : α) (l1 l2 : List (α × β)) :
    alookup k (l1 ++ l2) =
      match alookup k l1 with
      | some v => some v
      | none => alookup k l2 := by
  induction l1 with
  | nil => simp [alookup]
  | cons p rest ih =>
    by_cases h : p.1 = k <;> simp [alookup, h, ih]

theorem alookup_append_self {α β : Type} [DecidableEq α] (k : α) (l : List (α × β))
    (v : β) (h : alookup k l = none) : alookup k (l ++ [(k, v)]) = some v := by
  rw [alookup_append, h]
  simp [alookup]

theorem alookup_aupdate_self {α β : Type} [DecidableEq α] (k : α) (v : β)
    (l : List (α × β)) : alookup k (aupdate k v l) = some v := by
  induction l with
  | nil => simp [alookup, aupdate]
  | cons p rest ih =>
    by_cases h : p.1 = k <;> simp [alookup, aupdate, h, ih]

theorem alookup_aupdate_ne {α β : Type} [DecidableEq α] (k k' : α) (v : β)
    (l : List (α × β)) (h : k' ≠ k) :
    alookup k' (aupdate k v l) = alookup k' l := by
  induction l with
  | nil => simp [alookup, aupdate, Ne.symm h]
  | cons p rest ih =>
    by_cases hp : p.1 = k
    · have hpk : p.1 ≠ k' := by rw [hp]; exact Ne.symm h
      simp [alookup, aupdate, hp, hpk, Ne.symm h]
    · by_cases hk : p.1 = k' <;> simp [alookup, aupdate, hp, hk, h, ih]

/-! ## Invariants of the resolution/injection family -/

/-- The input world of a request. -/
def Req.wld : Req → World
  | Req.getBean w _ => w
  | Req.getByType w _ => w
  | Req.newInst w _ => w
  | Req.inject w _ => w
  | Req.injectFrom w _ _ _ => w

/-- The injection target of a request (`none` for resolution). -/
def Req.tgt : Req → Option Ref
  | Req.getBean _ _ => none
  | Req.getByType _ _ => none
  | Req.newInst _ _ => none
  | Req.inject _ i => some i.ref
  | Req.injectFrom _ i _ _ => some i.ref

/-- The output world of a result. -/
def Res.wld : Res → World
  | Res.found w _ => w
  | Res.injected w _ => w

theorem alookup_setFieldVal_ne (w : World) (t r : Ref) (idx : Nat) (d : Inst)
    (h : r ≠ t) : alookup r (setFieldVal w t idx d).heap = alookup r w.heap := by
  show alookup r (w.heap.map _) = alookup r w.heap
  induction w.heap with
  | nil => simp [alookup]
  | cons p rest ih =>
    by_cases hp : p.1 = t
    · have hpr : p.1 ≠ r := by rw [hp]; exact fun hh => h hh.symm
      simp [alookup, hp, hpr, ih, Ne.symm h]
    · by_cases hr : p.1 = r <;> simp [alookup, hp, hr, h, ih]

theorem nextRef_setFieldVal (w : World) (t : Ref) (idx : Nat) (d : Inst) :
    (setFieldVal w t idx d).nextRef = w.nextRef := rfl

theorem nextRef_pushLog (w : World) (e : LogEvent) :
    (pushLog w e).nextRef = w.nextRef := rfl

theorem heap_pushLog (w : World) (e : LogEvent) :
    (pushLog w e).heap = w.heap := rfl

theorem log_setFieldVal (w : World) (t : Ref) (idx : Nat) (d : Inst) :
    (setFieldVal w t idx d).log = w.log := rfl

theorem alookup_allocate_lt (tenv : TyEnv) (w : World) (t : TyId) (r : Ref)
    (h : r < w.nextRef) :
    alookup r (allocate tenv w t).heap = alookup r w.heap := by
  show alookup r (w.heap ++ _) = alookup r w.heap
  rw [alookup_append]
  cases hl : alookup r w.heap with
  | some v => rfl
  | none => simp [alookup, Nat.ne_of_gt h]

/-- Joint invariant of one `exec` step: the allocator only moves
forward, heap entries below the incoming `nextRef` (other than the
injection target) are untouched, and the event log only grows. -/
theorem exec_invariants (tenv : TyEnv) (c : Container) :
    ∀ (fuel : Nat) (req : Req) (res : Res), exec tenv c fuel req = some res →
      req.wld.nextRef ≤ res.wld.nextRef ∧
      (∀ r : Ref, r < req.wld.nextRef → req.tgt ≠ some r →
        alookup r res.wld.heap = alookup r req.wld.heap) ∧
      (∃ l, res.wld.log = req.wld.log ++ l) := by
  intro fuel
  induction fuel with
  | zero => intro req res h; simp [exec] at h
  | succ fuel ih =>
    intro req res h
    cases req with
    | getBean w name =>
      rw [exec] at h
      cases hb : alookup name c.beans with
      | none =>
        rw [hb] at h
        cases h
        exact ⟨Nat.le_refl _, fun r _ _ => rfl, [], by show w.log = w.log ++ []; simp⟩
      | some bd =>
        rw [hb] at h
        by_cases hs : bd.Singleton
        · simp only [hs, if_pos] at h
          cases h
          exact ⟨Nat.le_refl _, fun r _ _ => rfl, [], by show w.log = w.log ++ []; simp⟩
        · simp only [hs, if_neg, Bool.false_eq_true, not_false_eq_true] at h
          exact ih (Req.newInst w bd) res h
    | getByType w ty =>
      rw [exec] at h
      cases hb : alookup ty c.typeMapping with
      | none =>
        rw [hb] at h
        cases h
        exact ⟨Nat.le_refl _, fun r _ _ => rfl, [], by show w.log = w.log ++ []; simp⟩
      | some name =>
        rw [hb] at h
        exact ih (Req.getBean w name) res h
    | newInst w bd =>
      rw [exec] at h
      cases hi : exec tenv c fuel (Req.inject (allocate tenv w bd.tyId) ⟨bd.tyId, w.nextRef⟩) with
      | none => rw [hi] at h; cases h
      | some res1 =>
        rw [hi] at h
        cases res1 with
        | found w2 r2 => cases h
        | injected w2 e2 =>
          cases h
          have inv := ih _ _ hi
          refine ⟨?_, ?_, ?_⟩
          · calc w.nextRef ≤ w.nextRef + 1 := Nat.le_succ _
              _ ≤ w2.nextRef := inv.1
          · intro r hr _
            have h1 : alookup r w2.heap = alookup r (allocate tenv w bd.tyId).heap := by
              refine inv.2.1 r ?_ ?_
              · exact Nat.lt_succ_of_lt hr
              · simp [Req.tgt]
                exact Nat.ne_of_gt hr
            show alookup r w2.heap = alookup r w.heap
            rw [h1]
            exact alookup_allocate_lt tenv w bd.tyId r hr
          · exact inv.2.2
    | inject w i =>
      rw [exec] at h
      have inv := ih _ _ h
      exact ⟨inv.1, inv.2.1, inv.2.2⟩
    | injectFrom w i idx fs =>
      simp only [Req.wld, Req.tgt]
      cases fs with
      | nil =>
        rw [exec] at h
        cases h
        exact ⟨Nat.le_refl _, fun r _ _ => rfl, [], by show w.log = w.log ++ []; simp⟩
      | cons f rest =>
        rw [exec] at h
        by_cases h1 : f.injectTag = ""
        · simp only [h1, if_pos] at h
          have inv := ih _ _ h
          simp only [Req.wld, Req.tgt, Res.wld] at inv
          exact ⟨inv.1, inv.2.1, inv.2.2⟩
        · simp only [h1, if_neg, not_false_eq_true] at h
          by_cases h2 : !f.canSet
          · simp only [h2, if_pos] at h
            have inv := ih _ _ h
            simp only [Req.wld, Req.tgt, Res.wld] at inv
            exact ⟨inv.1, inv.2.1, inv.2.2⟩
          · simp only [h2, if_neg, not_false_eq_true, Bool.not_eq_true'] at h
            set depReq := if f.injectTag ≠ "true" then Req.getBean w f.injectTag
              else Req.getByType w f.ftype with hdr
            have hdw : depReq.wld = w := by
              by_cases ht : f.injectTag ≠ "true" <;> simp [hdr, ht, Req.wld]
            have hdt : depReq.tgt = none := by
              by_cases ht : f.injectTag ≠ "true" <;> simp [hdr, ht, Req.tgt]
            have hsplit : (if f.injectTag ≠ "true" then exec tenv c fuel (Req.getBean w f.injectTag)
                else exec tenv c fuel (Req.getByType w f.ftype)) = exec tenv c fuel depReq := by
              by_cases ht : f.injectTag ≠ "true" <;> simp [hdr, ht]
            rw [hsplit] at h
            cases hd : exec tenv c fuel depReq with
            | none => rw [hd] at h; cases h
            | some dres =>
              rw [hd] at h
              have dinv := ih _ _ hd
              rw [hdw, hdt] at dinv
              cases dres with
              | injected w1 e1 => cases h
              | found w1 od =>
                simp only [Res.wld] at dinv
                cases od with
                | none =>
                  have inv := ih _ _ h
                  simp only [Req.wld, Req.tgt] at inv
                  refine ⟨?_, ?_, ?_⟩
                  · exact Nat.le_trans dinv.1 inv.1
                  · intro r hr htg
                    rw [inv.2.1 r (Nat.lt_of_lt_of_le hr dinv.1) htg]
                    show alookup r w1.heap = alookup r w.heap
                    exact dinv.2.1 r hr (by simp)
                  · rcases dinv.2.2 with ⟨l1, hl1⟩
                    rcases inv.2.2 with ⟨l2, hl2⟩
                    refine ⟨l1 ++ [LogEvent.dependencyInjectionFailed i.tyId idx] ++ l2, ?_⟩
                    rw [hl2]
                    show (w1.log ++ [LogEvent.dependencyInjectionFailed i.tyId idx]) ++ l2 = _
                    rw [hl1]
                    simp
                | some d =>
                  by_cases ha : assignable tenv d.tyId f.ftype
                  · simp only [ha, if_pos] at h
                    have inv := ih _ _ h
                    simp only [Req.wld, Req.tgt] at inv
                    refine ⟨?_, ?_, ?_⟩
                    · exact Nat.le_trans dinv.1 inv.1
                    · intro r hr htg
                      rw [inv.2.1 r (Nat.lt_of_lt_of_le hr dinv.1) htg]
                      show alookup r (setFieldVal w1 i.ref idx d).heap = alookup r w.heap
                      have hrni : r ≠ i.ref := by
                        intro hh
                        exact htg (by rw [hh])
                      rw [alookup_setFieldVal_ne w1 i.ref r idx d hrni]
                      exact dinv.2.1 r hr (by simp)
                    · rcases dinv.2.2 with ⟨l1, hl1⟩
                      rcases inv.2.2 with ⟨l2, hl2⟩
                      refine ⟨l1 ++ [LogEvent.dependencyInjected i.tyId idx] ++ l2, ?_⟩
                      rw [hl2]
                      show (w1.log ++ [LogEvent.dependencyInjected i.tyId idx]) ++ l2 = _
                      rw [hl1]
                      simp
                  · simp only [ha, if_neg, Bool.false_eq_true, not_false_eq_true] at h
                    have inv := ih _ _ h
                    simp only [Req.wld, Req.tgt] at inv
                    refine ⟨Nat.le_trans dinv.1 inv.1, ?_, ?_⟩
                    · intro r hr htg
                      rw [inv.2.1 r (Nat.lt_of_lt_of_le hr dinv.1) htg]
                      exact dinv.2.1 r hr (by simp)
                    · rcases dinv.2.2 with ⟨l1, hl1⟩
                      rcases inv.2.2 with ⟨l2, hl2⟩
                      exact ⟨l1 ++ l2, by rw [hl2, hl1, List.append_assoc]⟩

/-- The field loop always returns `nil` as its error: the source's
`InjectDependencies` has a single `return nil`. -/
theorem exec_injectFrom_no_error (tenv : TyEnv) (c : Container) :
    ∀ (fuel : Nat) (w : World) (i : Inst) (idx : Nat) (fs : List GoField) (res : Res),
      exec tenv c fuel (Req.injectFrom w i idx fs) = some res →
      ∃ w', res = Res.injected w' none := by
  intro fuel
  induction fuel with
  | zero => intro w i idx fs res h; simp [exec] at h
  | succ fuel ih =>
    intro w i idx fs res h
    cases fs with
    | nil =>
      rw [exec] at h
      cases h
      exact ⟨w, rfl⟩
    | cons f rest =>
      rw [exec] at h
      by_cases h1 : f.injectTag = ""
      · simp only [h1, if_pos] at h
        exact ih _ _ _ _ _ h
      · simp only [h1, if_neg, not_false_eq_true] at h
        by_cases h2 : !f.canSet
        · simp only [h2, if_pos] at h
          exact ih _ _ _ _ _ h
        · simp only [h2, if_neg, not_false_eq_true, Bool.not_eq_true'] at h
          have hsplit : (if f.injectTag ≠ "true" then exec tenv c fuel (Req.getBean w f.injectTag)
              else exec tenv c fuel (Req.getByType w f.ftype)) =
              exec tenv c fuel (if f.injectTag ≠ "true" then Req.getBean w f.injectTag
                else Req.getByType w f.ftype) := by
            by_cases ht : f.injectTag ≠ "true" <;> simp [ht]
          rw [hsplit] at h
          cases hd : exec tenv c fuel (if f.injectTag ≠ "true" then Req.getBean w f.injectTag
              else Req.getByType w f.ftype) with
          | none => rw [hd] at h; cases h
          | some dres =>
            rw [hd] at h
            cases dres with
            | injected w1 e1 => cases h
            | found w1 od =>
              cases od with
              | none => exact ih _ _ _ _ _ h
              | some d =>
                by_cases ha : assignable tenv d.tyId f.ftype
                · simp only [ha, if_pos] at h
                  exact ih _ _ _ _ _ h
                · simp only [ha, if_neg, Bool.false_eq_true, not_false_eq_true] at h
                  exact ih _ _ _ _ _ h

/-- `InjectDependencies` always returns `nil` (shape of the `inject`
request). -/
theorem exec_inject_no_error (tenv : TyEnv) (c : Container) (fuel : Nat)
    (w : World) (i : Inst) (res : Res)
    (h : exec tenv c fuel (Req.inject w i) = some res) :
    ∃ w', res = Res.injected w' none := by
  cases fuel with
  | zero => simp [exec] at h
  | succ fuel =>
    rw [exec] at h
    exact exec_injectFrom_no_error tenv c fuel _ _ _ _ _ h

/-- Shape of `createNewInstance`: the returned instance is the fresh
reference of the declared element type, allocated zero-valued, and
injection ran on it before returning. -/
theorem exec_newInst_shape (tenv : TyEnv) (c : Container) (fuel : Nat)
    (w : World) (bd : BeanDefinition) (res : Res)
    (h : exec tenv c fuel (Req.newInst w bd) = some res) :
    ∃ fuel' w', fuel = fuel' + 1 ∧
      exec tenv c fuel' (Req.inject (allocate tenv w bd.tyId) ⟨bd.tyId, w.nextRef⟩)
        = some (Res.injected w' none) ∧
      res = Res.found w' (some ⟨bd.tyId, w.nextRef⟩) := by
  cases fuel with
  | zero => simp [exec] at h
  | succ fuel =>
    rw [exec] at h
    cases hi : exec tenv c fuel (Req.inject (allocate tenv w bd.tyId) ⟨bd.tyId, w.nextRef⟩) with
    | none => rw [hi] at h; cases h
    | some dres =>
      rw [hi] at h
      cases dres with
      | found w2 r2 => cases h
      | injected w2 e2 =>
        cases h
        rcases exec_inject_no_error tenv c fuel _ _ _ hi with ⟨w', he⟩
        injection he with hw hee
        subst hw
        subst hee
        exact ⟨fuel, w2, rfl, hi, rfl⟩

/-- Shape of `GetBean`: a `found` result whose instance is present
exactly when the name is registered (a singleton resolves to its
stored instance, a prototype to a fresh one). -/
theorem exec_getBean_shape (tenv : TyEnv) (c : Container) (fuel : Nat)
    (w : World) (name : String) (res : Res)
    (h : exec tenv c fuel (Req.getBean w name) = some res) :
    ∃ w' oi, res = Res.found w' oi ∧ oi.isSome = (alookup name c.beans).isSome := by
  cases fuel with
  | zero => simp [exec] at h
  | succ fuel =>
    rw [exec] at h
    cases hb : alookup name c.beans with
    | none =>
      rw [hb] at h
      cases h
      exact ⟨w, none, rfl, by simp⟩
    | some bd =>
      rw [hb] at h
      by_cases hs : bd.Singleton
      · simp only [hs, if_pos] at h
        cases h
        exact ⟨w, some bd.Instance, rfl, by simp⟩
      · simp only [hs, if_neg, Bool.false_eq_true, not_false_eq_true] at h
        rcases exec_newInst_shape tenv c fuel w bd res h with ⟨fuel', w', _, _, hres⟩
        exact ⟨w', some ⟨bd.tyId, w.nextRef⟩, hres, by simp⟩

/-- Shape of `GetBeanByType`: one `typeMapping` indirection then
`GetBean`. -/
theorem exec_getByType_shape (tenv : TyEnv) (c : Container) (fuel : Nat)
    (w : World) (ty : GoType) (res : Res)
    (h : exec tenv c fuel (Req.getByType w ty) = some res) :
    ∃ w' oi, res = Res.found w' oi ∧
      oi.isSome = (match alookup ty c.typeMapping with
        | some n => (alookup n c.beans).isSome
        | none => false) := by
  cases fuel with
  | zero => simp [exec] at h
  | succ fuel =>
    rw [exec] at h
    cases hb : alookup ty c.typeMapping with
    | none =>
      rw [hb] at h
      cases h
      exact ⟨w, none, rfl, by simp⟩
    | some n =>
      rw [hb] at h
      rcases exec_getBean_shape tenv c fuel w n res h with ⟨w', oi, hres, hsome⟩
      exact ⟨w', oi, hres, by simp [hsome]⟩

/-- The dependency-resolution step of one field, related to
`resolvable`: the optional instance is present exactly when the
container can resolve the field. -/
theorem exec_dep_resolvable (tenv : TyEnv) (c : Container) (fuel : Nat)
    (w : World) (f : GoField) (res : Res)
    (h : exec tenv c fuel (if f.injectTag ≠ "true" then Req.getBean w f.injectTag
      else Req.getByType w f.ftype) = some res) :
    ∃ w' oi, res = Res.found w' oi ∧ oi.isSome = resolvable c f := by
  by_cases ht : f.injectTag ≠ "true"
  · rw [if_pos ht] at h
    rcases exec_getBean_shape tenv c fuel w f.injectTag res h with ⟨w', oi, hres, hsome⟩
    exact ⟨w', oi, hres, by rw [hsome, resolvable, if_pos ht]⟩
  · rw [if_neg ht] at h
    rcases exec_getByType_shape tenv c fuel w f.ftype res h with ⟨w', oi, hres, hsome⟩
    exact ⟨w', oi, hres, by rw [hsome, resolvable, if_neg ht]⟩

theorem listSet_get?_ne {α : Type} (l : List α) (i j : Nat) (a : α)
    (h : i ≠ j) : (l.set i a).get? j = l.get? j := by
  induction l generalizing i j with
  | nil => simp
  | cons x xs ih =>
    cases i with
    | zero =>
      cases j with
      | zero => exact absurd rfl h
      | succ j => simp [List.set, List.get?]
    | succ i =>
      cases j with
      | zero => simp [List.set, List.get?]
      | succ j =>
        simp only [List.set, List.get?]
        exact ih i j (fun hh => h (by rw [hh]))

theorem alookup_setFieldVal_self (w : World) (t : Ref) (idx : Nat) (d : Inst) :
    alookup t (setFieldVal w t idx d).heap =
      (alookup t w.heap).map (fun o => ⟨o.tyId, o.fieldVals.set idx (some d)⟩) := by
  show alookup t (w.heap.map _) = _
  induction w.heap with
  | nil => simp [alookup]
  | cons p rest ih =>
    by_cases hp : p.1 = t
    · simp [alookup, hp]
    · simp [alookup, hp, ih]

/-- Setting a field at one index leaves every other index of the same
object unchanged. -/
theorem fieldValAt_setFieldVal_ne_idx (w : World) (t : Ref) (idx j : Nat)
    (d : Inst) (h : idx ≠ j) :
    fieldValAt (setFieldVal w t idx d) t j = fieldValAt w t j := by
  rw [fieldValAt, fieldValAt, alookup_setFieldVal_self]
  cases alookup t w.heap with
  | none => rfl
  | some o =>
    show ((o.fieldVals.set idx (some d)).get? j) = o.fieldVals.get? j
    exact listSet_get?_ne o.fieldVals idx j (some d) h

theorem fieldValAt_of_alookup_eq (w w' : World) (r : Ref)
    (h : alookup r w'.heap = alookup r w.heap) (j : Nat) :
    fieldValAt w' r j = fieldValAt w r j := by
  rw [fieldValAt, fieldValAt, h]

/-- The field loop never touches field slots below its starting
index. -/
theorem exec_injectFrom_frame_low (tenv : TyEnv) (c : Container) :
    ∀ (fuel : Nat) (w : World) (i : Inst) (idx : Nat) (fs : List GoField)
      (w' : World) (e : Option String),
      exec tenv c fuel (Req.injectFrom w i idx fs) = some (Res.injected w' e) →
      i.ref < w.nextRef →
      ∀ j, j < idx → fieldValAt w' i.ref j = fieldValAt w i.ref j := by
  intro fuel
  induction fuel with
  | zero => intro w i idx fs w' e h; simp [exec] at h
  | succ fuel ih =>
    intro w i idx fs w' e h hlt j hj
    cases fs with
    | nil =>
      rw [exec] at h
      cases h
      rfl
    | cons f rest =>
      rw [exec] at h
      by_cases h1 : f.injectTag = ""
      · simp only [h1, if_pos] at h
        exact ih _ _ _ _ _ _ h hlt j (Nat.lt_succ_of_lt hj)
      · simp only [h1, if_neg, not_false_eq_true] at h
        by_cases h2 : !f.canSet
        · simp only [h2, if_pos] at h
          exact ih _ _ _ _ _ _ h hlt j (Nat.lt_succ_of_lt hj)
        · simp only [h2, if_neg, not_false_eq_true, Bool.not_eq_true'] at h
          have hsplit : (if f.injectTag ≠ "true" then exec tenv c fuel (Req.getBean w f.injectTag)
              else exec tenv c fuel (Req.getByType w f.ftype)) =
              exec tenv c fuel (if f.injectTag ≠ "true" then Req.getBean w f.injectTag
                else Req.getByType w f.ftype) := by
            by_cases ht : f.injectTag ≠ "true" <;> simp [ht]
          rw [hsplit] at h
          cases hd : exec tenv c fuel (if f.injectTag ≠ "true" then Req.getBean w f.injectTag
              else Req.getByType w f.ftype) with
          | none => rw [hd] at h; cases h
          | some dres =>
            rw [hd] at h
            have dinv := exec_invariants tenv c fuel _ _ hd
            have hdw : (if f.injectTag ≠ "true" then Req.getBean w f.injectTag
                else Req.getByType w f.ftype).wld = w := by
              by_cases ht : f.injectTag ≠ "true" <;> simp [ht, Req.wld]
            have hdt : (if f.injectTag ≠ "true" then Req.getBean w f.injectTag
                else Req.getByType w f.ftype).tgt = none := by
              by_cases ht : f.injectTag ≠ "true" <;> simp [ht, Req.tgt]
            rw [hdw, hdt] at dinv
            cases dres with
            | injected w1 e1 => cases h
            | found w1 od =>
              simp only [Res.wld] at dinv
              have hheap : alookup i.ref w1.heap = alookup i.ref w.heap :=
                dinv.2.1 i.ref hlt (by simp)
              have hlt1 : i.ref < w1.nextRef := Nat.lt_of_lt_of_le hlt dinv.1
              have hfv : fieldValAt w1 i.ref j = fieldValAt w i.ref j :=
                fieldValAt_of_alookup_eq w w1 i.ref hheap j
              cases od with
              | none =>
                have hres := ih _ _ _ _ _ _ h (by
                  show i.ref < (pushLog w1 _).nextRef
                  exact hlt1) j (Nat.lt_succ_of_lt hj)
                rw [hres]
                exact hfv
              | some d =>
                by_cases ha : assignable tenv d.tyId f.ftype
                · simp only [ha, if_pos] at h
                  have hres := ih _ _ _ _ _ _ h (by
                    show i.ref < (pushLog (setFieldVal w1 i.ref idx d) _).nextRef
                    exact hlt1) j (Nat.lt_succ_of_lt hj)
                  rw [hres]
                  show fieldValAt (setFieldVal w1 i.ref idx d) i.ref j = fieldValAt w i.ref j
                  rw [fieldValAt_setFieldVal_ne_idx w1 i.ref idx j d (Nat.ne_of_gt hj)]
                  exact hfv
                · simp only [ha, if_neg, Bool.false_eq_true, not_false_eq_true] at h
                  have hres := ih _ _ _ _ _ _ h hlt1 j (Nat.lt_succ_of_lt hj)
                  rw [hres]
                  exact hfv

/-- An unresolvable field is left at the value it had (its zero value
on a fresh object) and a failure event reaches the logging sink. -/
theorem exec_injectFrom_unresolved (tenv : TyEnv) (c : Container) :
    ∀ (fuel : Nat) (w : World) (i : Inst) (idx : Nat) (fs : List GoField)
      (w' : World) (e : Option String),
      exec tenv c fuel (Req.injectFrom w i idx fs) = some (Res.injected w' e) →
      i.ref < w.nextRef →
      ∀ (k : Nat) (f : GoField), fs.get? k = some f →
        f.injectTag ≠ "" → f.canSet = true → resolvable c f = false →
        fieldValAt w' i.ref (idx + k) = fieldValAt w i.ref (idx + k) ∧
        LogEvent.dependencyInjectionFailed i.tyId (idx + k) ∈ w'.log := by
  intro fuel
  induction fuel with
  | zero => intro w i idx fs w' e h; simp [exec] at h
  | succ fuel ih =>
    intro w i idx fs w' e h hlt k f hk hf1 hf2 hf3
    cases fs with
    | nil => simp at hk
    | cons f0 rest =>
      rw [exec] at h
      cases k with
      | zero =>
        simp only [List.get?] at hk
        injection hk with hk0
        subst hk0
        rw [if_neg hf1, if_neg (by rw [hf2]; simp)] at h
        have hsplit : (if f0.injectTag ≠ "true" then exec tenv c fuel (Req.getBean w f0.injectTag)
            else exec tenv c fuel (Req.getByType w f0.ftype)) =
            exec tenv c fuel (if f0.injectTag ≠ "true" then Req.getBean w f0.injectTag
              else Req.getByType w f0.ftype) := by
          by_cases ht : f0.injectTag ≠ "true" <;> simp [ht]
        rw [hsplit] at h
        cases hd : exec tenv c fuel (if f0.injectTag ≠ "true" then Req.getBean w f0.injectTag
            else Req.getByType w f0.ftype) with
        | none => rw [hd] at h; cases h
        | some dres =>
          rw [hd] at h
          rcases exec_dep_resolvable tenv c fuel w f0 dres hd with ⟨w1, od, hres, hsome⟩
          subst hres
          rw [hf3] at hsome
          have hod : od = none := by
            cases od with
            | none => rfl
            | some d => simp at hsome
          subst hod
          have dinv := exec_invariants tenv c fuel _ _ hd
          have hdw : (if f0.injectTag ≠ "true" then Req.getBean w f0.injectTag
              else Req.getByType w f0.ftype).wld = w := by
            by_cases ht : f0.injectTag ≠ "true" <;> simp [ht, Req.wld]
          have hdt : (if f0.injectTag ≠ "true" then Req.getBean w f0.injectTag
              else Req.getByType w f0.ftype).tgt = none := by
            by_cases ht : f0.injectTag ≠ "true" <;> simp [ht, Req.tgt]
          rw [hdw, hdt] at dinv
          simp only [Res.wld] at dinv
          have hheap : alookup i.ref w1.heap = alookup i.ref w.heap :=
            dinv.2.1 i.ref hlt (by simp)
          have hlt1 : i.ref < w1.nextRef := Nat.lt_of_lt_of_le hlt dinv.1
          constructor
          · have hframe := exec_injectFrom_frame_low tenv c fuel _ i (idx + 1) rest w' e h
              (by show i.ref < (pushLog w1 _).nextRef; exact hlt1)
              idx (by omega)
            rw [Nat.add_zero, hframe]
            show fieldValAt w1 i.ref idx = fieldValAt w i.ref idx
            exact fieldValAt_of_alookup_eq w w1 i.ref hheap idx
          · have linv := exec_invariants tenv c fuel _ _ h
            simp only [Req.wld, Res.wld] at linv
            rcases linv.2.2 with ⟨l, hl⟩
            rw [hl]
            show LogEvent.dependencyInjectionFailed i.tyId (idx + 0) ∈
              (w1.log ++ [LogEvent.dependencyInjectionFailed i.tyId idx]) ++ l
            rw [Nat.add_zero]
            simp
      | succ k1 =>
        simp only [List.get?] at hk
        have harith : idx + (k1 + 1) = (idx + 1) + k1 := by omega
        rw [harith]
        by_cases h1 : f0.injectTag = ""
        · simp only [h1, if_pos] at h
          exact ih _ _ _ _ _ _ h hlt k1 f hk hf1 hf2 hf3
        · simp only [h1, if_neg, not_false_eq_true] at h
          by_cases h2 : !f0.canSet
          · simp only [h2, if_pos] at h
            exact ih _ _ _ _ _ _ h hlt k1 f hk hf1 hf2 hf3
          · simp only [h2, if_neg, not_false_eq_true, Bool.not_eq_true'] at h
            have hsplit : (if f0.injectTag ≠ "true" then exec tenv c fuel (Req.getBean w f0.injectTag)
                else exec tenv c fuel (Req.getByType w f0.ftype)) =
                exec tenv c fuel (if f0.injectTag ≠ "true" then Req.getBean w f0.injectTag
                  else Req.getByType w f0.ftype) := by
              by_cases ht : f0.injectTag ≠ "true" <;> simp [ht]
            rw [hsplit] at h
            cases hd : exec tenv c fuel (if f0.injectTag ≠ "true" then Req.getBean w f0.injectTag
                else Req.getByType w f0.ftype) with
            | none => rw [hd] at h; cases h
            | some dres =>
              rw [hd] at h
              have dinv := exec_invariants tenv c fuel _ _ hd
              have hdw : (if f0.injectTag ≠ "true" then Req.getBean w f0.injectTag
                  else Req.getByType w f0.ftype).wld = w := by
                by_cases ht : f0.injectTag ≠ "true" <;> simp [ht, Req.wld]
              have hdt : (if f0.injectTag ≠ "true" then Req.getBean w f0.injectTag
                  else Req.getByType w f0.ftype).tgt = none := by
                by_cases ht : f0.injectTag ≠ "true" <;> simp [ht, Req.tgt]
              rw [hdw, hdt] at dinv
              cases dres with
              | injected w1 e1 => cases h
              | found w1 od =>
                simp only [Res.wld] at dinv
                have hheap : alookup i.ref w1.heap = alookup i.ref w.heap :=
                  dinv.2.1 i.ref hlt (by simp)
                have hlt1 : i.ref < w1.nextRef := Nat.lt_of_lt_of_le hlt dinv.1
                have hfv : ∀ j, fieldValAt w1 i.ref j = fieldValAt w i.ref j :=
                  fun j => fieldValAt_of_alookup_eq w w1 i.ref hheap j
                cases od with
                | none =>
                  have hres := ih _ _ _ _ _ _ h (by
                    show i.ref < (pushLog w1 _).nextRef
                    exact hlt1) k1 f hk hf1 hf2 hf3
                  refine ⟨?_, hres.2⟩
                  rw [hres.1]
                  exact hfv _
                | some d =>
                  by_cases ha : assignable tenv d.tyId f0.ftype
                  · simp only [ha, if_pos] at h
                    have hres := ih _ _ _ _ _ _ h (by
                      show i.ref < (pushLog (setFieldVal w1 i.ref idx d) _).nextRef
                      exact hlt1) k1 f hk hf1 hf2 hf3
                    refine ⟨?_, hres.2⟩
                    rw [hres.1]
                    show fieldValAt (setFieldVal w1 i.ref idx d) i.ref ((idx + 1) + k1)
                      = fieldValAt w i.ref ((idx + 1) + k1)
                    rw [fieldValAt_setFieldVal_ne_idx w1 i.ref idx ((idx + 1) + k1) d (by omega)]
                    exact hfv _
                  · simp only [ha, if_neg, Bool.false_eq_true, not_false_eq_true] at h
                    have hres := ih _ _ _ _ _ _ h hlt1 k1 f hk hf1 hf2 hf3
                    refine ⟨?_, hres.2⟩
                    rw [hres.1]
                    exact hfv _

/-! ## Lemmas about the lifecycle manager and the context -/

theorem processInit_destroyOrder (tenv : TyEnv) (lm : LifecycleManager)
    (n : String) (i : Inst) :
    (ProcessInitialization tenv lm n i).1.destroyOrder = lm.destroyOrder := by
  rw [ProcessInitialization]
  cases (initChain tenv n i.tyId i.ref).2 <;> rfl

theorem processInit_initOrder (tenv : TyEnv) (lm : LifecycleManager)
    (n : String) (i : Inst) :
    ∃ l, (ProcessInitialization tenv lm n i).1.initOrder = lm.initOrder ++ l := by
  rw [ProcessInitialization]
  cases (initChain tenv n i.tyId i.ref).2 with
  | none => exact ⟨[n], rfl⟩
  | some e => exact ⟨[], by simp⟩

theorem processDestr_initOrder (tenv : TyEnv) (lm : LifecycleManager)
    (n : String) (i : Inst) :
    (ProcessDestruction tenv lm n i).1.initOrder = lm.initOrder := rfl

theorem processDestr_destroyOrder (tenv : TyEnv) (lm : LifecycleManager)
    (n : String) (i : Inst) :
    (ProcessDestruction tenv lm n i).1.destroyOrder = n :: lm.destroyOrder := rfl

/-- The init loop never touches `destroyOrder` and only appends to
`initOrder`. -/
theorem startLoop_frame (fuel : Nat) (tenv : TyEnv) (c : Container) :
    ∀ (ns : List String) (lm : LifecycleManager) (w : World)
      (res : LifecycleManager × World × List HookCall × Option String),
      startLoop fuel tenv c lm w ns = some res →
      res.1.destroyOrder = lm.destroyOrder ∧
      ∃ l, res.1.initOrder = lm.initOrder ++ l := by
  intro ns
  induction ns with
  | nil =>
    intro lm w res h
    rw [startLoop] at h
    cases h
    exact ⟨rfl, [], by simp⟩
  | cons n rest ih =>
    intro lm w res h
    rw [startLoop] at h
    split at h
    · cases h
    · exact ih _ _ res h
    · dsimp only at h
      split at h
      · cases h
        exact ⟨processInit_destroyOrder tenv lm n _, processInit_initOrder tenv lm n _⟩
      · split at h
        · cases h
        · cases h
          rename_i hloop
          rcases ih _ _ _ hloop with ⟨hd, l2, hi⟩
          refine ⟨?_, ?_⟩
          · rw [hd, processInit_destroyOrder]
          · rcases processInit_initOrder tenv lm n ‹Inst› with ⟨l1, hl1⟩
            exact ⟨l1 ++ l2, by rw [hi, hl1, List.append_assoc]⟩

/-- The destroy loop never touches `initOrder` and only prepends to
`destroyOrder`. -/
theorem stopLoop_frame (fuel : Nat) (tenv : TyEnv) (c : Container) :
    ∀ (ns : List String) (lm : LifecycleManager) (w : World)
      (res : LifecycleManager × World × List HookCall),
      stopLoop fuel tenv c lm w ns = some res →
      res.1.initOrder = lm.initOrder ∧
      ∃ l, res.1.destroyOrder = l ++ lm.destroyOrder := by
  intro ns
  induction ns with
  | nil =>
    intro lm w res h
    rw [stopLoop] at h
    cases h
    exact ⟨rfl, [], rfl⟩
  | cons n rest ih =>
    intro lm w res h
    rw [stopLoop] at h
    split at h
    · cases h
    · exact ih _ _ res h
    · dsimp only at h
      split at h
      · cases h
      · cases h
        rename_i hloop
        rcases ih _ _ _ hloop with ⟨hio, l2, hdo⟩
        refine ⟨?_, ?_⟩
        · rw [hio, processDestr_initOrder]
        · refine ⟨l2 ++ [n], ?_⟩
          rw [hdo, processDestr_destroyOrder]
          simp

/-- `WireAll`'s loop never produces an error (it forwards
`InjectDependencies`, which never fails). -/
theorem wireLoop_no_error (fuel : Nat) (tenv : TyEnv) (c : Container) :
    ∀ (bs : List (String × BeanDefinition)) (w : World)
      (res : World × Option String),
      wireLoop fuel tenv c w bs = some res → res.2 = none := by
  intro bs
  induction bs with
  | nil =>
    intro w res h
    rw [wireLoop] at h
    cases h
    rfl
  | cons p rest ih =>
    intro w res h
    rw [wireLoop] at h
    cases hj : InjectDependencies fuel tenv c w p.2.Instance with
    | none => rw [hj] at h; cases h
    | some q =>
      rw [hj] at h
      rcases q with ⟨w1, e⟩
      have he : e = none := by
        rw [InjectDependencies] at hj
        cases hx : exec tenv c fuel (Req.inject w p.2.Instance) with
        | none => rw [hx] at hj; cases hj
        | some r =>
          rw [hx] at hj
          rcases exec_inject_no_error tenv c fuel w p.2.Instance r hx with ⟨w2, hr⟩
          subst hr
          cases hj
          rfl
      subst he
      exact ih w1 res h

/-- `Stop` on a started context: always a `nil` error, the container
cleared, `started` cleared, and the lifecycle-manager frame from the
destroy loop. -/
theorem stop_structure (fuel : Nat) (tenv : TyEnv) (ctx : ApplicationContext)
    (w : World) (order : List String)
    (res : ApplicationContext × World × List HookCall × Option String)
    (hst : ctx.started = true)
    (h : Stop fuel tenv ctx w order = some res) :
    res.2.2.2 = none ∧ res.1.container = ⟨[], []⟩ ∧ res.1.started = false ∧
      res.1.lifecycleManager.initOrder = ctx.lifecycleManager.initOrder ∧
      ∃ l, res.1.lifecycleManager.destroyOrder
        = l ++ ctx.lifecycleManager.destroyOrder := by
  rw [Stop, hst] at h
  simp only [Bool.not_true, Bool.false_eq_true, if_neg, not_false_eq_true, ite_false] at h
  cases hs : stopLoop fuel tenv ctx.container ctx.lifecycleManager w order.reverse with
  | none => rw [hs] at h; cases h
  | some q =>
    rw [hs] at h
    cases h
    rcases stopLoop_frame fuel tenv ctx.container order.reverse ctx.lifecycleManager w q hs
      with ⟨hio, l, hdo⟩
    exact ⟨rfl, rfl, rfl, hio, l, hdo⟩

/-- `Start` on a non-started context: the container is carried over
unchanged, `destroyOrder` is untouched and `initOrder` only grows; on
success `started` is set. -/
theorem start_structure (fuel : Nat) (tenv : TyEnv) (ctx : ApplicationContext)
    (w : World) (order : List String)
    (res : ApplicationContext × World × List HookCall × Option String)
    (hst : ctx.started = false)
    (h : Start fuel tenv ctx w order = some res) :
    res.1.container = ctx.container ∧
      res.1.lifecycleManager.destroyOrder = ctx.lifecycleManager.destroyOrder ∧
      (∃ l, res.1.lifecycleManager.initOrder = ctx.lifecycleManager.initOrder ++ l) ∧
      (res.2.2.2 = none → res.1.started = true) := by
  rw [Start, hst] at h
  simp only [Bool.false_eq_true, if_neg, not_false_eq_true, ite_false] at h
  split at h
  · cases h
  · cases h
    rename_i w1 e hw
    have he := wireLoop_no_error fuel tenv ctx.container ctx.container.beans w (w1, some e) hw
    cases he
  · rename_i w1 hw
    split at h
    · cases h
    · cases h
      rename_i hloop
      rcases startLoop_frame fuel tenv ctx.container order ctx.lifecycleManager w1 _ hloop
        with ⟨hd, l, hi⟩
      exact ⟨rfl, hd, ⟨l, hi⟩, fun hc => by cases hc⟩
    · cases h
      rename_i hloop
      rcases startLoop_frame fuel tenv ctx.container order ctx.lifecycleManager w1 _ hloop
        with ⟨hd, l, hi⟩
      exact ⟨rfl, hd, ⟨l, hi⟩, fun _ => rfl⟩

/-! ## Concrete scenarios used by the claims -/

/-- A struct type with no fields, no methods, no tags. -/
def tyPlain : StructTy := ⟨[], [], false, [], [], []⟩

/-- A struct type implementing `Initializer` whose `Init` returns the
error `m`. -/
def tyInitFail (m : String) : StructTy :=
  ⟨[], [("Init", MethodRes.err (some m))], false, [], [], []⟩

/-- A struct type implementing `Destroyer` whose `Destroy` returns
`nil`. -/
def tyDestroyerNil : StructTy :=
  ⟨[], [("Destroy", MethodRes.err none)], false, [], [], []⟩

/-- A struct type implementing `Destroyer` whose `Destroy` returns
the error `m`. -/
def tyDestroyerFail (m : String) : StructTy :=
  ⟨[], [("Destroy", MethodRes.err (some m))], false, [], [], []⟩

/-- Scenario for C1: three hookless singletons `a`, `b`, `c`
registered in that order. -/
def c1Tenv : TyEnv := [(0, tyPlain)]

def c1Cont : Container :=
  (registerBean (registerBean (registerBean NewContainer "a" ⟨0, 0⟩ true).1
    "b" ⟨0, 1⟩ true).1 "c" ⟨0, 2⟩ true).1

def c1World : World := ⟨[(0, ⟨0, []⟩), (1, ⟨0, []⟩), (2, ⟨0, []⟩)], 3, []⟩

def c1Ctx : ApplicationContext := ⟨c1Cont, NewLifecycleManager, false⟩

/-- C1: the claim states that registering beans `a, b, c` in that
order and calling `Start()` then `Stop()` always yields
`initOrder = [a,b,c]` and `destroyOrder = [c,b,a]`.  This FAILS on the
code: `Start` and `Stop` each iterate `ListBeans()`, which ranges over
the Go bean map, whose iteration order is unspecified and independent
between the two calls.  Under the legal iteration orders
`[b,a,c]` (during `Start`) and `[a,b,c]` (during `Stop`) the run
succeeds with `initOrder = [b,a,c]` and `destroyOrder = [a,b,c]` —
neither registration order, nor its reverse, nor even the reverse of
the actual `initOrder`. -/
theorem c1_start_stop_order_not_registration_order :
    ValidIteration c1Cont ["b", "a", "c"] ∧
    ValidIteration c1Cont ["a", "b", "c"] ∧
    ((Start 5 c1Tenv c1Ctx c1World ["b", "a", "c"]).bind
        (fun p => Stop 5 c1Tenv p.1 p.2.1 ["a", "b", "c"])).map
      (fun p => (p.1.lifecycleManager.initOrder,
                 p.1.lifecycleManager.destroyOrder, p.2.2.2))
      = some (["b", "a", "c"], ["a", "b", "c"], none) := by
  exact ⟨by decide, by decide, by decide⟩

/-- Scenario for C2: one singleton `d` implementing `Destroyer`
(`Destroy() error`, returning `nil`), in a started context. -/
def c2Tenv : TyEnv := [(1, tyDestroyerNil)]

def c2Cont : Container := (registerBean NewContainer "d" ⟨1, 0⟩ true).1

def c2World : World := ⟨[(0, ⟨1, []⟩)], 1, []⟩

def c2Ctx : ApplicationContext := ⟨c2Cont, NewLifecycleManager, true⟩

/-- C2: the claim states that a single `Stop()` never invokes a
bean's destroy hook more than once.  This FAILS on the code: for a
bean implementing `Destroyer`, `ProcessDestruction` calls `Destroy`
through the interface (step 2) and then `callDestroyMethod` looks the
same `Destroy` method up by name and calls it AGAIN (unlike
`callInitMethod`, it does not exclude methods already invoked through
an interface).  One `Stop()` over the single bean `d` invokes its
`Destroy` hook exactly twice and still reports success. -/
theorem c2_destroy_hook_invoked_twice_in_one_stop :
    ValidIteration c2Cont ["d"] ∧
    (Stop 5 c2Tenv c2Ctx c2World ["d"]).map
      (fun p => (p.2.2.1.count ((0 : Nat), "Destroy"), p.2.2.2))
      = some (2, none) := by
  exact ⟨by decide, by decide⟩

/-- Scenario for C3: singletons `a` (no hooks, type 0), `b` (type 1,
`Init` fails with `m`), `c` (no hooks), registered in that order. -/
def c3Tenv (m : String) : TyEnv := [(0, tyPlain), (1, tyInitFail m)]

def c3Cont (a b c : String) : Container :=
  (registerBean (registerBean (registerBean NewContainer a ⟨0, 0⟩ true).1
    b ⟨1, 1⟩ true).1 c ⟨0, 2⟩ true).1

def c3World : World := ⟨[(0, ⟨0, []⟩), (1, ⟨1, []⟩), (2, ⟨0, []⟩)], 3, []⟩

/-- C3: when `Start()` iterates `a`, then `b` (whose `Init` hook
returns error `m`), with `c` still unprocessed: `initOrder` is exactly
`[a]` (so contains `a` but neither `b` nor `c`), the only hook ever
invoked after `a`'s (none) is `b`'s failing `Init` — bean `c` is never
attempted — the context stays un-started, and `Start` returns the
error naming `b` (the message wraps `b`'s name twice: once by
`ProcessInitialization`, once more by `Start`). -/
theorem c3_init_failure_aborts_and_contains
    (a b c m : String) (hab : a ≠ b) (hac : a ≠ c) (hbc : b ≠ c) :
    ValidIteration (c3Cont a b c) [a, b, c] ∧
    (Start 5 (c3Tenv m) ⟨c3Cont a b c, NewLifecycleManager, false⟩ c3World [a, b, c]).map
      (fun p => (p.1.lifecycleManager.initOrder, p.2.2.1, p.2.2.2, p.1.started))
      = some ([a], [(1, "Init")],
          some ("failed to initialize bean " ++ quo b ++ ": "
            ++ ("failed to initialize bean " ++ quo b ++ ": " ++ m)), false) ∧
    a ∈ [a] ∧ b ∉ [a] ∧ c ∉ [a] := by
  refine ⟨?_, ?_, ?_, ?_, ?_⟩
  · show List.Perm _ _
    have hcont : ListBeans (c3Cont a b c) = [a, b, c] := by
      simp [ListBeans, c3Cont, registerBean, NewContainer, alookup, aupdate,
        hab, hac, hbc]
    rw [hcont]
  · simp [Start, WireAll, wireLoop, InjectDependencies, exec, startLoop, GetBean,
      ProcessInitialization, initChain, runIfaceHook, andThenStep, callInitMethod,
      callFirstValid, callByName, callTagged, initMethodNames, isInitializer,
      isPostConstruct, methodOf, lookupTy, alookup, aupdate, registerBean, c3Cont,
      c3Tenv, c3World, NewContainer, NewLifecycleManager, tyPlain, tyInitFail,
      hab, hac, hbc, Ne.symm hab, Ne.symm hac, Ne.symm hbc]
  · simp
  · simp [Ne.symm hab]
  · simp [Ne.symm hac]

/-- Witness for C3 at concrete names and message. -/
theorem c3_init_failure_aborts_and_contains_witness :
    ("a" : String) ≠ "b" ∧ ("a" : String) ≠ "c" ∧ ("b" : String) ≠ "c" ∧
    (ValidIteration (c3Cont "a" "b" "c") ["a", "b", "c"] ∧
     (Start 5 (c3Tenv "boom") ⟨c3Cont "a" "b" "c", NewLifecycleManager, false⟩
        c3World ["a", "b", "c"]).map
       (fun p => (p.1.lifecycleManager.initOrder, p.2.2.1, p.2.2.2, p.1.started))
       = some (["a"], [(1, "Init")],
           some ("failed to initialize bean " ++ quo "b" ++ ": "
             ++ ("failed to initialize bean " ++ quo "b" ++ ": " ++ "boom")), false) ∧
     "a" ∈ ["a"] ∧ "b" ∉ ["a"] ∧ "c" ∉ ["a"]) :=
  ⟨by decide, by decide, by decide,
    c3_init_failure_aborts_and_contains "a" "b" "c" "boom"
      (by decide) (by decide) (by decide)⟩

/-- Scenario for C4: singleton `a` (type 2, `Destroy` succeeds) then
singleton `b` (type 3, `Destroy` fails with `m`), in a started
context. -/
def c4Tenv (m : String) : TyEnv := [(2, tyDestroyerNil), (3, tyDestroyerFail m)]

def c4Cont (a b : String) : Container :=
  (registerBean (registerBean NewContainer a ⟨2, 0⟩ true).1 b ⟨3, 1⟩ true).1

def c4World : World := ⟨[(0, ⟨2, []⟩), (1, ⟨3, []⟩)], 2, []⟩

/-- C4: `Stop()` over iteration order `[a, b]` destroys in reverse:
`b` first (its `Destroy` hook — ref 1 — errors), then `a` (ref 0),
whose destroy hook is still invoked (twice, by the C2 bug, but
invoked); `destroyOrder` ends as `[a, b]`, containing both names, and
`Stop` returns `nil` — a destruction error never aborts it. -/
theorem c4_destroy_best_effort (a b m : String) (hab : a ≠ b) :
    ValidIteration (c4Cont a b) [a, b] ∧
    (Stop 5 (c4Tenv m) ⟨c4Cont a b, NewLifecycleManager, true⟩ c4World [a, b]).map
      (fun p => (p.1.lifecycleManager.destroyOrder, p.2.2.1, p.2.2.2))
      = some ([a, b], [(1, "Destroy"), (0, "Destroy"), (0, "Destroy")], none) ∧
    a ∈ [a, b] ∧ b ∈ [a, b] ∧
    ((0 : Nat), "Destroy") ∈ [((1 : Nat), "Destroy"), (0, "Destroy"), (0, "Destroy")] := by
  refine ⟨?_, ?_, by simp, by simp, by simp⟩
  · show List.Perm _ _
    have hcont : ListBeans (c4Cont a b) = [a, b] := by
      simp [ListBeans, c4Cont, registerBean, NewContainer, alookup, aupdate, hab]
    rw [hcont]
  · simp [Stop, stopLoop, GetBean, exec, ProcessDestruction, destroyChain,
      runIfaceHook, andThenStep, callDestroyMethod, callFirstValid, callByName,
      callTagged, methodOf, lookupTy, alookup, aupdate, registerBean, c4Cont,
      c4Tenv, c4World, NewContainer, NewLifecycleManager, tyDestroyerNil,
      tyDestroyerFail, containerDestroy, pushLog, hasNiladicDestroy,
      hab, Ne.symm hab]

/-- Witness for C4 at concrete names and message. -/
theorem c4_destroy_best_effort_witness :
    ("a" : String) ≠ "b" ∧
    (ValidIteration (c4Cont "a" "b") ["a", "b"] ∧
     (Stop 5 (c4Tenv "bang") ⟨c4Cont "a" "b", NewLifecycleManager, true⟩
        c4World ["a", "b"]).map
       (fun p => (p.1.lifecycleManager.destroyOrder, p.2.2.1, p.2.2.2))
       = some (["a", "b"], [(1, "Destroy"), (0, "Destroy"), (0, "Destroy")], none) ∧
     "a" ∈ ["a", "b"] ∧ "b" ∈ ["a", "b"] ∧
     ((0 : Nat), "Destroy") ∈ [((1 : Nat), "Destroy"), (0, "Destroy"), (0, "Destroy")]) :=
  ⟨by decide, c4_destroy_best_effort "a" "b" "bang" (by decide)⟩

/-- Characterisation of a successful `registerBean`: the name was
free, the definition is appended, and the element and pointer types
are mapped to the name. -/
theorem registerBean_success (c c1 : Container) (n : String) (x : Inst) (s : Bool)
    (h : registerBean c n x s = (c1, none)) :
    alookup n c.beans = none ∧
    c1.beans = c.beans ++ [(n, ⟨n, x.tyId, s, x⟩)] ∧
    c1.typeMapping
      = aupdate (GoType.ptr x.tyId) n (aupdate (GoType.named x.tyId) n c.typeMapping) := by
  rw [registerBean] at h
  by_cases hl : (alookup n c.beans).isSome
  · rw [if_pos hl] at h
    injection h with h1 h2
    cases h2
  · rw [if_neg hl] at h
    injection h with h1 h2
    subst h1
    exact ⟨Option.not_isSome_iff_eq_none.mp hl, rfl, rfl⟩

/-- C5: after a first successful `RegisterSingleton(n, x)`, any second
registration under `n` (singleton or prototype, any instance) returns
the duplicate-name error and leaves the container value untouched, and
`GetBean(n)` still yields `x`. -/
theorem c5_duplicate_name_rejected (c0 c1 : Container) (n : String) (x y : Inst)
    (s : Bool) (fuel : Nat) (tenv : TyEnv) (w : World)
    (h : RegisterSingleton c0 n x = (c1, none)) :
    registerBean c1 n y s = (c1, some (dupNameMsg n)) ∧
    GetBean (fuel + 1) tenv c1 w n = some (w, some x) := by
  rcases registerBean_success c0 c1 n x true h with ⟨hnone, hbeans, _⟩
  have hlook : alookup n c1.beans = some ⟨n, x.tyId, true, x⟩ := by
    rw [hbeans]
    exact alookup_append_self n c0.beans _ hnone
  constructor
  · rw [registerBean, if_pos (by rw [hlook]; rfl)]
  · simp [GetBean, exec, hlook]

def c5WitCont : Container := (RegisterSingleton NewContainer "s" ⟨0, 0⟩).1

/-- Witness for C5 at a concrete container. -/
theorem c5_duplicate_name_rejected_witness :
    RegisterSingleton NewContainer "s" ⟨0, 0⟩ = (c5WitCont, none) ∧
    (registerBean c5WitCont "s" ⟨1, 7⟩ false = (c5WitCont, some (dupNameMsg "s")) ∧
     GetBean 1 c1Tenv c5WitCont c1World "s" = some (c1World, some ⟨0, 0⟩)) :=
  ⟨by decide,
   c5_duplicate_name_rejected NewContainer c5WitCont "s" ⟨0, 0⟩ ⟨1, 7⟩ false
     0 c1Tenv c1World (by decide)⟩

/-- C6: type-resolution round trip.  After `RegisterSingleton(n, x)`
both the pointer type `*T` and the element type `T` of `x` resolve via
`GetBeanByType` to `x`; after a successful
`RegisterByInterface(I, x2, n2)` the interface type `I` resolves to
`x2`. -/
theorem c6_type_resolution_round_trip (tenv : TyEnv) (c0 c1 d0 d2 : Container)
    (n n2 : String) (x x2 : Inst) (i : Nat) (fuel : Nat) (w : World)
    (h : RegisterSingleton c0 n x = (c1, none))
    (h2 : RegisterByInterface tenv d0 i x2 n2 = (d2, none)) :
    GetBeanByType (fuel + 2) tenv c1 w (GoType.ptr x.tyId) = some (w, some x) ∧
    GetBeanByType (fuel + 2) tenv c1 w (GoType.named x.tyId) = some (w, some x) ∧
    GetBeanByType (fuel + 2) tenv d2 w (GoType.iface i) = some (w, some x2) := by
  rcases registerBean_success c0 c1 n x true h with ⟨hnone, hbeans, htm⟩
  have hlook : alookup n c1.beans = some ⟨n, x.tyId, true, x⟩ := by
    rw [hbeans]
    exact alookup_append_self n c0.beans _ hnone
  have hptr : alookup (GoType.ptr x.tyId) c1.typeMapping = some n := by
    rw [htm]
    exact alookup_aupdate_self _ n _
  have hnamed : alookup (GoType.named x.tyId) c1.typeMapping = some n := by
    rw [htm, alookup_aupdate_ne _ _ n _ (by intro hh; cases hh)]
    exact alookup_aupdate_self _ n _
  refine ⟨?_, ?_, ?_⟩
  · simp [GetBeanByType, exec, hptr, hlook]
  · simp [GetBeanByType, exec, hnamed, hlook]
  · rw [RegisterByInterface] at h2
    by_cases hi : i ∈ (lookupTy tenv x2.tyId).ifaces
    · rw [if_pos hi] at h2
      cases hr : RegisterSingleton d0 n2 x2 with
      | mk d1 oe =>
        rw [hr] at h2
        cases oe with
        | some e =>
          injection h2 with h21 h22
          cases h22
        | none =>
          injection h2 with h21 h22
          subst h21
          rcases registerBean_success d0 d1 n2 x2 true hr with ⟨hnone2, hbeans2, _⟩
          have hlook2 : alookup n2 d1.beans = some ⟨n2, x2.tyId, true, x2⟩ := by
            rw [hbeans2]
            exact alookup_append_self n2 d0.beans _ hnone2
          have hif : alookup (GoType.iface i)
              (aupdate (GoType.iface i) n2 d1.typeMapping) = some n2 :=
            alookup_aupdate_self _ n2 _
          simp [GetBeanByType, exec, hif, hlook2]
    · rw [if_neg hi] at h2
      injection h2 with h21 h22
      cases h22

/-- A struct type implementing user interface `9`. -/
def tyWithIface : StructTy := ⟨[], [], false, [9], [], []⟩

def c6Tenv : TyEnv := [(4, tyWithIface)]

def c6Wit1 : Container := (RegisterSingleton NewContainer "t" ⟨4, 0⟩).1

def c6Wit2 : Container := (RegisterByInterface c6Tenv NewContainer 9 ⟨4, 1⟩ "u").1

/-- Witness for C6 at concrete containers. -/
theorem c6_type_resolution_round_trip_witness :
    RegisterSingleton NewContainer "t" ⟨4, 0⟩ = (c6Wit1, none) ∧
    RegisterByInterface c6Tenv NewContainer 9 ⟨4, 1⟩ "u" = (c6Wit2, none) ∧
    (GetBeanByType 2 c6Tenv c6Wit1 c1World (GoType.ptr 4) = some (c1World, some ⟨4, 0⟩) ∧
     GetBeanByType 2 c6Tenv c6Wit1 c1World (GoType.named 4) = some (c1World, some ⟨4, 0⟩) ∧
     GetBeanByType 2 c6Tenv c6Wit2 c1World (GoType.iface 9) = some (c1World, some ⟨4, 1⟩)) :=
  ⟨by decide, by decide,
   c6_type_resolution_round_trip c6Tenv NewContainer c6Wit1 NewContainer c6Wit2
     "t" "u" ⟨4, 0⟩ ⟨4, 1⟩ 9 0 c1World (by decide) (by decide)⟩

/-- What `GetBean` does on a prototype-registered name: the returned
instance is the freshly allocated reference bearing the declared
element type, the allocator moved strictly forward, and dependency
injection ran on the fresh zero-valued object before returning. -/
theorem getBean_prototype_spec (fuel : Nat) (tenv : TyEnv) (c : Container)
    (w : World) (n : String) (bd : BeanDefinition) (w1 : World) (oi : Option Inst)
    (hbd : alookup n c.beans = some bd) (hp : bd.Singleton = false)
    (h : GetBean fuel tenv c w n = some (w1, oi)) :
    oi = some ⟨bd.tyId, w.nextRef⟩ ∧ w.nextRef < w1.nextRef ∧
    ∃ f, InjectDependencies f tenv c (allocate tenv w bd.tyId) ⟨bd.tyId, w.nextRef⟩
      = some (w1, none) := by
  rw [GetBean] at h
  cases hx : exec tenv c fuel (Req.getBean w n) with
  | none => rw [hx] at h; cases h
  | some res =>
    rw [hx] at h
    cases fuel with
    | zero => simp [exec] at hx
    | succ fuel =>
      rw [exec, hbd] at hx
      dsimp only at hx
      rw [if_neg (by rw [hp]; simp)] at hx
      rcases exec_newInst_shape tenv c fuel w bd res hx with ⟨fuel2, w2, _, hinj, hres⟩
      subst hres
      dsimp only at h
      cases h
      have hnr := (exec_invariants tenv c fuel2 _ _ hinj).1
      simp only [Req.wld, Res.wld] at hnr
      refine ⟨rfl, ?_, ?_⟩
      · calc w.nextRef < w.nextRef + 1 := Nat.lt_succ_self _
          _ = (allocate tenv w bd.tyId).nextRef := rfl
          _ ≤ w1.nextRef := hnr
      · exact ⟨fuel2, by rw [InjectDependencies, hinj]⟩

/-- C7: two `GetBean` calls on a prototype-registered name return
distinct fresh references, each of the declared type, and each wired
by running `InjectDependencies` on the freshly allocated zero-valued
object before being returned. -/
theorem c7_prototype_distinct_and_wired (fuel1 fuel2 : Nat) (tenv : TyEnv)
    (c : Container) (w w1 w2 : World) (n : String) (bd : BeanDefinition)
    (o1 o2 : Option Inst)
    (hbd : alookup n c.beans = some bd) (hp : bd.Singleton = false)
    (h1 : GetBean fuel1 tenv c w n = some (w1, o1))
    (h2 : GetBean fuel2 tenv c w1 n = some (w2, o2)) :
    o1 = some ⟨bd.tyId, w.nextRef⟩ ∧ o2 = some ⟨bd.tyId, w1.nextRef⟩ ∧
    w.nextRef ≠ w1.nextRef ∧ o1 ≠ o2 ∧
    (∃ f, InjectDependencies f tenv c (allocate tenv w bd.tyId)
        ⟨bd.tyId, w.nextRef⟩ = some (w1, none)) ∧
    (∃ f, InjectDependencies f tenv c (allocate tenv w1 bd.tyId)
        ⟨bd.tyId, w1.nextRef⟩ = some (w2, none)) := by
  rcases getBean_prototype_spec fuel1 tenv c w n bd w1 o1 hbd hp h1 with ⟨ho1, hlt1, hi1⟩
  rcases getBean_prototype_spec fuel2 tenv c w1 n bd w2 o2 hbd hp h2 with ⟨ho2, hlt2, hi2⟩
  refine ⟨ho1, ho2, Nat.ne_of_lt hlt1, ?_, hi1, hi2⟩
  rw [ho1, ho2]
  intro hh
  injection hh with hh2
  have : w.nextRef = w1.nextRef := congrArg Inst.ref hh2
  exact Nat.ne_of_lt hlt1 this

/-- Scenario for the C7 witness: singleton `d` (type 0) and prototype
`p` (type 5, one settable field `inject:"d"` of type `*T0`). -/
def tyProto : StructTy := ⟨[⟨"d", GoType.ptr 0, true⟩], [], false, [], [], []⟩

def c7Tenv : TyEnv := [(0, tyPlain), (5, tyProto)]

def c7Cont : Container :=
  (registerBean (registerBean NewContainer "d" ⟨0, 0⟩ true).1 "p" ⟨5, 1⟩ false).1

def c7World : World := ⟨[(0, ⟨0, []⟩), (1, ⟨5, [none]⟩)], 2, []⟩

def c7World1 : World :=
  ⟨[(0, ⟨0, []⟩), (1, ⟨5, [none]⟩), (2, ⟨5, [some ⟨0, 0⟩]⟩)], 3,
   [LogEvent.dependencyInjected 5 0]⟩

def c7World2 : World :=
  ⟨[(0, ⟨0, []⟩), (1, ⟨5, [none]⟩), (2, ⟨5, [some ⟨0, 0⟩]⟩), (3, ⟨5, [some ⟨0, 0⟩]⟩)], 4,
   [LogEvent.dependencyInjected 5 0, LogEvent.dependencyInjected 5 0]⟩

/-- Witness for C7: the two calls return refs 2 and 3, both of type 5,
both with the dependency `d` injected into the fresh copy. -/
theorem c7_prototype_distinct_and_wired_witness :
    alookup "p" c7Cont.beans = some ⟨"p", 5, false, ⟨5, 1⟩⟩ ∧
    (⟨"p", 5, false, ⟨5, 1⟩⟩ : BeanDefinition).Singleton = false ∧
    GetBean 6 c7Tenv c7Cont c7World "p" = some (c7World1, some ⟨5, 2⟩) ∧
    GetBean 6 c7Tenv c7Cont c7World1 "p" = some (c7World2, some ⟨5, 3⟩) ∧
    (some ⟨5, 2⟩ = some (⟨5, c7World.nextRef⟩ : Inst) ∧
     some ⟨5, 3⟩ = some (⟨5, c7World1.nextRef⟩ : Inst) ∧
     c7World.nextRef ≠ c7World1.nextRef ∧
     (some ⟨5, 2⟩ : Option Inst) ≠ some ⟨5, 3⟩ ∧
     (∃ f, InjectDependencies f c7Tenv c7Cont (allocate c7Tenv c7World 5)
         ⟨5, c7World.nextRef⟩ = some (c7World1, none)) ∧
     (∃ f, InjectDependencies f c7Tenv c7Cont (allocate c7Tenv c7World1 5)
         ⟨5, c7World1.nextRef⟩ = some (c7World2, none))) :=
  ⟨by decide, by decide, by decide, by decide,
   c7_prototype_distinct_and_wired 6 6 c7Tenv c7Cont c7World c7World1 c7World2
     "p" ⟨"p", 5, false, ⟨5, 1⟩⟩ (some ⟨5, 2⟩) (some ⟨5, 3⟩)
     (by decide) (by decide) (by decide) (by decide)⟩

/-- C8: `InjectDependencies` never returns an error (the source has a
single `return nil`), so `WireAll` also always succeeds; an
unresolvable field dependency only pushes a
`DependencyInjectionFailed` event to the logging sink and leaves the
field at the value it had (its zero value on a fresh object). -/
theorem c8_injection_never_fails (tenv : TyEnv) (c : Container) :
    (∀ fuel w i w2 e, InjectDependencies fuel tenv c w i = some (w2, e) → e = none) ∧
    (∀ fuel w w2 e, WireAll fuel tenv c w = some (w2, e) → e = none) ∧
    (∀ fuel w i w2 e k f,
       InjectDependencies fuel tenv c w i = some (w2, e) →
       (lookupTy tenv i.tyId).fields.get? k = some f →
       f.injectTag ≠ "" → f.canSet = true → resolvable c f = false →
       i.ref < w.nextRef →
       fieldValAt w2 i.ref k = fieldValAt w i.ref k ∧
       LogEvent.dependencyInjectionFailed i.tyId k ∈ w2.log) := by
  refine ⟨?_, ?_, ?_⟩
  · intro fuel w i w2 e h
    rw [InjectDependencies] at h
    cases hx : exec tenv c fuel (Req.inject w i) with
    | none => rw [hx] at h; cases h
    | some res =>
      rw [hx] at h
      rcases exec_inject_no_error tenv c fuel w i res hx with ⟨w3, hres⟩
      subst hres
      cases h
      rfl
  · intro fuel w w2 e h
    exact wireLoop_no_error fuel tenv c c.beans w (w2, e) h
  · intro fuel w i w2 e k f h hf hf1 hf2 hf3 hlt
    rw [InjectDependencies] at h
    cases hx : exec tenv c fuel (Req.inject w i) with
    | none => rw [hx] at h; cases h
    | some res =>
      rw [hx] at h
      rcases exec_inject_no_error tenv c fuel w i res hx with ⟨w3, hres⟩
      subst hres
      cases h
      cases fuel with
      | zero => simp [exec] at hx
      | succ fuel =>
        rw [exec] at hx
        have hmain := exec_injectFrom_unresolved tenv c fuel w i 0
          (lookupTy tenv i.tyId).fields w2 none hx hlt k f hf hf1 hf2 hf3
        rw [Nat.zero_add] at hmain
        exact hmain

/-- `Start` over an empty container: nothing to wire, nothing to
initialize; it just sets the `started` flag. -/
theorem start_on_empty_container (fuel : Nat) (tenv : TyEnv)
    (lm : LifecycleManager) (w : World) :
    Start fuel tenv ⟨⟨[], []⟩, lm, false⟩ w []
      = some (⟨⟨[], []⟩, lm, true⟩, w, [], none) := by
  rw [Start]
  simp [WireAll, wireLoop, startLoop]

/-- C9: `Refresh()` on a started context succeeds and leaves a
started context whose registry is EMPTY: `Stop` runs
`Container.Destroy` (clearing every bean and type mapping) and the
subsequent `Start` runs over the now-empty container, so `HasBean`
is false for every name. -/
theorem c9_refresh_succeeds_but_empties_registry (fuel : Nat) (tenv : TyEnv)
    (ctx : ApplicationContext) (w : World) (stopOrder : List String)
    (res : ApplicationContext × World × List HookCall × Option String)
    (hst : ctx.started = true)
    (h : Refresh fuel tenv ctx w stopOrder [] = some res) :
    res.2.2.2 = none ∧ IsStarted res.1 = true ∧
    res.1.container.beans = [] ∧ ∀ n, HasBean res.1.container n = false := by
  rw [Refresh, if_pos (by rw [hst])] at h
  cases hstop : Stop fuel tenv ctx w stopOrder with
  | none => rw [hstop] at h; cases h
  | some q =>
    rw [hstop] at h
    rcases q with ⟨ctx1, w1, evs1, oe⟩
    have hs := stop_structure fuel tenv ctx w stopOrder (ctx1, w1, evs1, oe) hst hstop
    cases oe with
    | some e =>
      exact absurd hs.1 (by simp)
    | none =>
      dsimp only at h
      rcases ctx1 with ⟨co1, lm1, st1⟩
      have hco : co1 = (⟨[], []⟩ : Container) := hs.2.1
      have hst1 : st1 = false := hs.2.2.1
      subst hco
      subst hst1
      rw [start_on_empty_container fuel tenv lm1 w1] at h
      cases h
      refine ⟨rfl, rfl, rfl, ?_⟩
      intro n
      rfl

/-- C10: `Stop` leaves `initOrder` unchanged and only prepends to
`destroyOrder`; `Start` leaves `destroyOrder` unchanged and only
appends to `initOrder`; the context never calls
`LifecycleManager.Reset`, so after a `Stop`/`Start` cycle both logs
still contain every entry accumulated before it. -/
theorem c10_order_logs_accumulate (fuel fuel2 : Nat) (tenv : TyEnv)
    (ctx : ApplicationContext) (w : World) (so o2 : List String)
    (r1 r2 : ApplicationContext × World × List HookCall × Option String)
    (hst : ctx.started = true)
    (h1 : Stop fuel tenv ctx w so = some r1)
    (h2 : Start fuel2 tenv r1.1 r1.2.1 o2 = some r2) :
    r1.1.lifecycleManager.initOrder = ctx.lifecycleManager.initOrder ∧
    (∃ l, r1.1.lifecycleManager.destroyOrder
       = l ++ ctx.lifecycleManager.destroyOrder) ∧
    r2.1.lifecycleManager.destroyOrder = r1.1.lifecycleManager.destroyOrder ∧
    (∃ l, r2.1.lifecycleManager.initOrder
       = r1.1.lifecycleManager.initOrder ++ l) ∧
    (∀ x, x ∈ ctx.lifecycleManager.initOrder →
       x ∈ r2.1.lifecycleManager.initOrder) ∧
    (∀ x, x ∈ ctx.lifecycleManager.destroyOrder →
       x ∈ r2.1.lifecycleManager.destroyOrder) := by
  have hs := stop_structure fuel tenv ctx w so r1 hst h1
  have hjoin := start_structure fuel2 tenv r1.1 r1.2.1 o2 r2 hs.2.2.1 h2
  rcases hs.2.2.2 with ⟨hio, l1, hdo⟩
  rcases hjoin.2.2.1 with ⟨l2, hi2⟩
  refine ⟨hio, ⟨l1, hdo⟩, hjoin.2.1, ⟨l2, hi2⟩, ?_, ?_⟩
  · intro x hx
    rw [hi2, hio]
    exact List.mem_append_left l2 hx
  · intro x hx
    rw [hjoin.2.1, hdo]
    exact List.mem_append_right l1 hx

/-- Scenario for the C8 witness: a singleton `u` (type 6) with one
settable field `inject:"missing"` whose target bean does not exist. -/
def tyUnres : StructTy := ⟨[⟨"missing", GoType.ptr 0, true⟩], [], false, [], [], []⟩

def c8Tenv : TyEnv := [(6, tyUnres)]

def c8Cont : Container := (registerBean NewContainer "u" ⟨6, 0⟩ true).1

def c8World : World := ⟨[(0, ⟨6, [none]⟩)], 1, []⟩

def c8World2 : World := ⟨[(0, ⟨6, [none]⟩)], 1, [LogEvent.dependencyInjectionFailed 6 0]⟩

/-- Witness for C8: injection over the unresolvable field returns
`nil`, so does `WireAll`; the field is still its zero value and the
failure event reached the sink. -/
theorem c8_injection_never_fails_witness :
    InjectDependencies 3 c8Tenv c8Cont c8World ⟨6, 0⟩ = some (c8World2, none) ∧
    WireAll 3 c8Tenv c8Cont c8World = some (c8World2, none) ∧
    (lookupTy c8Tenv 6).fields.get? 0 = some ⟨"missing", GoType.ptr 0, true⟩ ∧
    resolvable c8Cont ⟨"missing", GoType.ptr 0, true⟩ = false ∧
    ((none : Option String) = none ∧ (none : Option String) = none ∧
     (fieldValAt c8World2 0 0 = fieldValAt c8World 0 0 ∧
      LogEvent.dependencyInjectionFailed 6 0 ∈ c8World2.log)) :=
  ⟨by decide, by decide, by decide, by decide,
   (c8_injection_never_fails c8Tenv c8Cont).1 3 c8World ⟨6, 0⟩ c8World2 none (by decide),
   (c8_injection_never_fails c8Tenv c8Cont).2.1 3 c8World c8World2 none (by decide),
   (c8_injection_never_fails c8Tenv c8Cont).2.2 3 c8World ⟨6, 0⟩ c8World2 none 0
     ⟨"missing", GoType.ptr 0, true⟩ (by decide) (by decide) (by decide)
     (by decide) (by decide) (by decide)⟩

def c9ResCtx : ApplicationContext := ⟨⟨[], []⟩, ⟨[], ["d"]⟩, true⟩

def c9ResWorld : World := ⟨[(0, ⟨1, []⟩)], 1, [LogEvent.componentDestroyed "d"]⟩

/-- Witness for C9: refreshing the started one-bean context `c2Ctx`
succeeds, is started again, and no longer has any bean. -/
theorem c9_refresh_succeeds_but_empties_registry_witness :
    c2Ctx.started = true ∧
    Refresh 5 c2Tenv c2Ctx c2World ["d"] []
      = some (c9ResCtx, c9ResWorld, [(0, "Destroy"), (0, "Destroy")], none) ∧
    ((none : Option String) = none ∧ IsStarted c9ResCtx = true ∧
     c9ResCtx.container.beans = [] ∧ ∀ n, HasBean c9ResCtx.container n = false) :=
  ⟨by decide, by decide,
   c9_refresh_succeeds_but_empties_registry 5 c2Tenv c2Ctx c2World ["d"]
     (c9ResCtx, c9ResWorld, [(0, "Destroy"), (0, "Destroy")], none)
     (by decide) (by decide)⟩

def c10Ctx : ApplicationContext := ⟨c2Cont, ⟨["i0"], ["d0"]⟩, true⟩

def c10R1 : ApplicationContext × World × List HookCall × Option String :=
  (⟨⟨[], []⟩, ⟨["i0"], ["d", "d0"]⟩, false⟩, c9ResWorld,
   [(0, "Destroy"), (0, "Destroy")], none)

def c10R2 : ApplicationContext × World × List HookCall × Option String :=
  (⟨⟨[], []⟩, ⟨["i0"], ["d", "d0"]⟩, true⟩, c9ResWorld, [], none)

/-- Witness for C10: a `Stop`/`Start` cycle on a context whose logs
already hold `i0` and `d0` keeps both entries. -/
theorem c10_order_logs_accumulate_witness :
    c10Ctx.started = true ∧
    Stop 5 c2Tenv c10Ctx c2World ["d"] = some c10R1 ∧
    Start 5 c2Tenv c10R1.1 c10R1.2.1 [] = some c10R2 ∧
    (c10R1.1.lifecycleManager.initOrder = c10Ctx.lifecycleManager.initOrder ∧
     (∃ l, c10R1.1.lifecycleManager.destroyOrder
        = l ++ c10Ctx.lifecycleManager.destroyOrder) ∧
     c10R2.1.lifecycleManager.destroyOrder = c10R1.1.lifecycleManager.destroyOrder ∧
     (∃ l, c10R2.1.lifecycleManager.initOrder
        = c10R1.1.lifecycleManager.initOrder ++ l) ∧
     (∀ x, x ∈ c10Ctx.lifecycleManager.initOrder →
        x ∈ c10R2.1.lifecycleManager.initOrder) ∧
     (∀ x, x ∈ c10Ctx.lifecycleManager.destroyOrder →
        x ∈ c10R2.1.lifecycleManager.destroyOrder)) :=
  ⟨by decide, by decide, by decide,
   c10_order_logs_accumulate 5 5 c2Tenv c10Ctx c2World ["d"] [] c10R1 c10R2
     (by decide) (by decide) (by decide)⟩

end GoSpring
